import Mathlib

/-!
Verification of the portable incremental backup engine
(`src/engine/backup_engine.py`) against its specification.

Shallow embedding conventions:
* file contents are byte sequences, modelled as `List Nat`;
* hash digests are sequences of hex digits, modelled as `List Nat`; the
  SHA-256 function itself is kept abstract (a parameter `hashFn`), since the
  engine only relies on it being a pure function of the content (collision
  freeness is an explicit hypothesis where a round trip needs it);
* on-disk trees (the content store, a snapshot's `files/` tree, a restore
  target directory) are association lists from paths to contents; an
  overwrite (`unlink` followed by `link`, or `shutil.copy2` onto an existing
  file) is `aupdate`, a lookup or existence test is `alookup`;
* paths are component lists (the code joins components with "/" via
  `as_posix`); the strings handed to the filter (`path.name`, `str(path)`)
  are kept as `String`s;
* the JSONL logger is modelled as an accumulated list of `Event`s, and the
  retry back-off `time.sleep(...)` calls as an accumulated list of slept
  durations;
* the Windows-only VSS context is the disabled (`ctx = None`) branch, which
  is the behaviour on every non-Windows platform; the `use_vss` flag is kept
  in the signature but, as in that branch, has no effect;
* Python's `fnmatch.fnmatch` (POSIX behaviour, where `os.path.normcase` is
  the identity) is embedded as `globMatch` for patterns built from literal
  characters, `*` and `?` (character classes are not used by any claim).
-/

/-- Association-list lookup: first binding wins, mirroring a filesystem where
each path names at most one file. -/
def alookup {α β : Type} [DecidableEq α] : List (α × β) → α → Option β
  | [], _ => none
  | p :: l, k => if p.1 = k then some p.2 else alookup l k

/-- Association-list overwrite: remove any binding for the key, then bind it.
This models removing an existing destination file and writing it anew. -/
def aupdate {α β : Type} [DecidableEq α] (l : List (α × β)) (k : α) (v : β) :
    List (α × β) :=
  l.filter (fun p => decide (p.1 ≠ k)) ++ [(k, v)]

/-- The keys (paths) bound in an association list. -/
def akeys {α β : Type} (l : List (α × β)) : List α := l.map Prod.fst

theorem alookup_mem {α β : Type} [DecidableEq α] {l : List (α × β)} {k : α}
    {v : β} (h : alookup l k = some v) : (k, v) ∈ l := by
  induction l with
  | nil => simp [alookup] at h
  | cons p l ih =>
    by_cases hk : p.1 = k
    · simp only [alookup, hk, if_pos] at h
      injection h with h
      have hp : p = (k, v) := by
        cases p with
        | mk a b => simp_all
      rw [hp]
      exact List.mem_cons_self _ _
    · simp only [alookup, hk, if_neg, not_false_iff] at h
      exact List.mem_cons_of_mem _ (ih h)

theorem alookup_append_left {α β : Type} [DecidableEq α]
    {l₁ : List (α × β)} (l₂ : List (α × β)) {k : α} {v : β}
    (h : alookup l₁ k = some v) : alookup (l₁ ++ l₂) k = some v := by
  induction l₁ with
  | nil => simp [alookup] at h
  | cons p l₁ ih =>
    by_cases hk : p.1 = k
    · simp only [alookup, hk, if_pos] at h ⊢
      exact h
    · simp only [alookup, hk, if_neg, not_false_iff, List.cons_append] at h ⊢
      exact ih h

theorem alookup_append_right {α β : Type} [DecidableEq α]
    {l₁ : List (α × β)} (l₂ : List (α × β)) {k : α}
    (h : alookup l₁ k = none) : alookup (l₁ ++ l₂) k = alookup l₂ k := by
  induction l₁ with
  | nil => simp
  | cons p l₁ ih =>
    by_cases hk : p.1 = k
    · simp [alookup, hk] at h
    · simp only [alookup, hk, if_neg, not_false_iff, List.cons_append] at h ⊢
      exact ih h

theorem alookup_filter_out {α β : Type} [DecidableEq α] (l : List (α × β))
    (k k' : α) (h : k' ≠ k) :
    alookup (l.filter (fun p => decide (p.1 ≠ k))) k' = alookup l k' := by
  induction l with
  | nil => simp
  | cons p l ih =>
    by_cases hk : p.1 = k
    · have hpk : ¬ p.1 = k' := fun hh => h (hh ▸ hk)
      have hf : List.filter (fun q => decide (q.1 ≠ k)) (p :: l) =
          List.filter (fun q => decide (q.1 ≠ k)) l := by
        simp [List.filter_cons, hk]
      rw [hf, ih]
      simp [alookup, hpk]
    · have hf : List.filter (fun q => decide (q.1 ≠ k)) (p :: l) =
          p :: List.filter (fun q => decide (q.1 ≠ k)) l := by
        simp [List.filter_cons, hk]
      rw [hf]
      by_cases hpk : p.1 = k'
      · simp [alookup, hpk]
      · simp only [alookup, hpk, if_neg, not_false_iff]
        exact ih

theorem alookup_aupdate_self {α β : Type} [DecidableEq α] (l : List (α × β))
    (k : α) (v : β) : alookup (aupdate l k v) k = some v := by
  unfold aupdate
  induction l with
  | nil => simp [alookup]
  | cons p l ih =>
    by_cases hk : p.1 = k
    · simpa [List.filter_cons, hk] using ih
    · simpa [List.filter_cons, hk, alookup] using ih

theorem alookup_aupdate_ne {α β : Type} [DecidableEq α] (l : List (α × β))
    (k k' : α) (v : β) (h : k' ≠ k) :
    alookup (aupdate l k v) k' = alookup l k' := by
  unfold aupdate
  rcases hcase : alookup (l.filter (fun p => decide (p.1 ≠ k))) k' with _ | w
  · rw [alookup_append_right _ hcase]
    rw [alookup_filter_out l k k' h] at hcase
    have hkk : ¬ k = k' := fun hh => h hh.symm
    simp [alookup, hkk, hcase]
  · rw [alookup_append_left _ hcase]
    rw [alookup_filter_out l k k' h] at hcase
    exact hcase.symm

theorem akeys_aupdate_nodup {α β : Type} [DecidableEq α] (l : List (α × β))
    (k : α) (v : β) (h : (akeys l).Nodup) :
    (akeys (aupdate l k v)).Nodup := by
  have h1 : (akeys (l.filter (fun p => decide (p.1 ≠ k)))).Nodup :=
    List.Nodup.sublist (List.Sublist.map Prod.fst (List.filter_sublist l)) h
  have h2 : k ∉ akeys (l.filter (fun p => decide (p.1 ≠ k))) := by
    intro hm
    rcases List.mem_map.1 hm with ⟨p, hp, hpk⟩
    have hfp := List.of_mem_filter hp
    simp only [decide_eq_true_eq, ne_eq] at hfp
    exact hfp hpk
  unfold aupdate akeys
  rw [List.map_append]
  refine List.Nodup.append h1 (List.nodup_singleton k) ?_
  intro x hx hx2
  simp only [List.map_cons, List.map_nil, List.mem_singleton] at hx2
  exact h2 (hx2 ▸ hx)

theorem alookup_isSome_of_akeys {α β : Type} [DecidableEq α]
    (l₁ l₂ : List (α × β)) (h : akeys l₁ = akeys l₂) (k : α) :
    (alookup l₁ k).isSome = (alookup l₂ k).isSome := by
  induction l₁ generalizing l₂ with
  | nil =>
    cases l₂ with
    | nil => rfl
    | cons q l₂ => simp [akeys] at h
  | cons p l₁ ih =>
    cases l₂ with
    | nil => simp [akeys] at h
    | cons q l₂ =>
      simp only [akeys, List.map_cons, List.cons.injEq] at h
      by_cases hk : p.1 = k
      · have hq : q.1 = k := h.1.symm.trans hk
        simp [alookup, hk, hq]
      · have hq : ¬ q.1 = k := by
          rw [← h.1]
          exact hk
        simp only [alookup, hk, hq, if_neg, not_false_iff]
        exact ih l₂ h.2

/-- Whitespace as recognized by Python's `str.strip` on the ASCII range
(space, tab, newline, vertical tab, form feed, carriage return). -/
def pySpace (c : Char) : Bool :=
  c = ' ' || c.toNat = 9 || c.toNat = 10 || c.toNat = 11 || c.toNat = 12 ||
    c.toNat = 13

/-- Python `str.strip()`: drop leading and trailing whitespace. -/
def pyStrip (s : String) : String :=
  String.mk (((s.data.dropWhile pySpace).reverse.dropWhile pySpace).reverse)

/-- Python `str.lower()` (ASCII letters; the mode strings and snapshot ids
the engine compares are ASCII). -/
def pyLower (s : String) : String :=
  String.mk (s.data.map Char.toLower)

/-- Fuel-indexed worker for glob matching. The fuel is an upper bound on
`pattern.length + text.length`, which strictly decreases on every recursive
call, so the fuelled function agrees with the usual glob semantics whenever
started with that much fuel (as `globMatch` does). -/
def globGo : Nat → List Char → List Char → Bool
  | 0, p, s => p.isEmpty && s.isEmpty
  | _ + 1, [], s => s.isEmpty
  | fuel + 1, '*' :: ps, [] => globGo fuel ps []
  | fuel + 1, '*' :: ps, c :: cs =>
      globGo fuel ps (c :: cs) || globGo fuel ('*' :: ps) cs
  | _ + 1, '?' :: _, [] => false
  | fuel + 1, '?' :: ps, _ :: cs => globGo fuel ps cs
  | _ + 1, _ :: _, [] => false
  | fuel + 1, a :: ps, c :: cs => a == c && globGo fuel ps cs

/-- Embedding of Python's `fnmatch.fnmatch` (POSIX, so `normcase` is the
identity) for patterns made of literal characters, `*` and `?`. -/
def globMatch (pattern text : String) : Bool :=
  globGo (pattern.data.length + text.data.length) pattern.data text.data

/-- Embedding of `match_patterns` from `backup_engine.py`: each pattern is stripped,
empty patterns are skipped, and a file matches when the stripped pattern
glob-matches its base name or its full path. -/
def match_patterns (name full : String) (patterns : List String) : Bool :=
  patterns.any fun pat =>
    let p := pyStrip pat
    if p = "" then false
    else globMatch p name || globMatch p full

/-- The matching predicate in the words of the spec (§3 Filter
Specification): "a file matches if any pattern matches its base name or its
full path" — with no whitespace normalization of the patterns. Used to
compare the spec's wording with the code's `match_patterns`. -/
def specWordsMatches (name full : String) (patterns : List String) : Bool :=
  patterns.any fun pat => globMatch pat name || globMatch pat full

/-- Python's `(mode or "exclude").strip().lower()` from `should_process`:
`None` and the empty string fall back to `"exclude"`, then the string is
stripped and lowercased. -/
def normMode (mode : Option String) : String :=
  let m := match mode with
    | none => "exclude"
    | some s => if s = "" then "exclude" else s
  pyLower (pyStrip m)

/-- Embedding of `should_process` from `backup_engine.py`: mode `"include"` processes
exactly the matching files; every other mode (the default) processes exactly
the non-matching files. -/
def should_process (name full : String) (patterns : List String)
    (mode : Option String) : Bool :=
  if normMode mode = "include" then match_patterns name full patterns
  else !match_patterns name full patterns

/-- One line of the JSONL event log (`Logger.write` calls in `backup`).
Only the fields the spec's event contract names are carried. -/
inductive Event where
  | start : Event
  | sourceMissing (path : String) : Event
  | skipByFilter (path : String) : Event
  | blobCopy (path : String) (h : List Nat) : Event
  | blobReuse (path : String) (h : List Nat) : Event
  | error (path : String) (attempt : Nat) : Event
  | done (entryCount : Nat) : Event
deriving DecidableEq, Repr

/-- One entry of `manifest.json`: `{"path", "hash", "size", "mtime"}`.
The `path` is kept as its "/"-separated components. A manifest read back
from disk may lack the hash, hence `Option`. -/
structure ManifestEntry where
  path : List String
  hash : Option (List Nat)
  size : Option Nat
  mtime : Option Int
deriving DecidableEq, Repr

/-- The manifest document `{"timestamp", "entries"}`. -/
structure Manifest where
  timestamp : String
  entries : List ManifestEntry
deriving DecidableEq, Repr

/-- A snapshot directory `repo/snapshots/<id>`: its `manifest.json` (absent
for a damaged snapshot) and its materialized `files/` tree (absent for a
damaged snapshot), keyed by logical-path components. -/
structure Snapshot where
  id : String
  manifest : Option Manifest
  files : Option (List (List String × List Nat))
deriving DecidableEq, Repr

/-- The repository: the `.store` blob area (keyed by the sharded blob path
`(<first two digest digits>, <digest>)`) and the `snapshots` collection. -/
structure Repo where
  store : List ((List Nat × List Nat) × List Nat)
  snapshots : List Snapshot
deriving DecidableEq, Repr

/-- The sharded store location of a digest: `store/<h[:2]>/<h>`. -/
def blobPath (h : List Nat) : List Nat × List Nat := (h.take 2, h)

/-- A regular file inside a source root, as the scan sees it: its relative
directory components, base name, byte content, stat data, whether `stat`
raises, and which processing attempts raise (1-indexed; an attempt raises at
the hashing step, before any store/materialize effect). -/
structure SrcFile where
  dirs : List String
  base : String
  content : List Nat
  mtime : Int
  statFails : Bool
  failsAttempt : Nat → Bool

/-- A source root handed to `backup`: its resolved path (as a string, for
full-path pattern matching) and its base directory name, plus the regular
files `os.walk` yields beneath it, in walk order. -/
structure SourceRoot where
  pathStr : String
  name : String
  files : List SrcFile

/-- The relative path components of a file below its root (`s.relative_to(mapped_root)`). -/
def relOf (f : SrcFile) : List String := f.dirs ++ [f.base]

/-- The logical path of a file: `<sourceRootName>/<relativePath>` as components. -/
def lpOf (root : SourceRoot) (f : SrcFile) : List String := root.name :: relOf f

/-- The full path string of a file (`str(s)`), POSIX separators. -/
def fullPathStr (root : SourceRoot) (f : SrcFile) : String :=
  root.pathStr ++ "/" ++ String.intercalate "/" (relOf f)

/-- The manifest entry `backup` appends for a successfully processed file. -/
def mkEntry (root : SourceRoot) (f : SrcFile) (h : List Nat) : ManifestEntry :=
  { path := lpOf root f,
    hash := some h,
    size := if f.statFails then none else some f.content.length,
    mtime := if f.statFails then none else some f.mtime }

/-- The retry loop of `backup` (its `while True` with `attempt`), unrolled:
`attempt` failed attempts have already happened and `remaining` further
attempts are allowed after the upcoming one. Returns whether an attempt
succeeded, the attempt numbers of the error events emitted, and the
durations of the `time.sleep(min(5 * attempt, 30))` calls made. -/
def retryFrom (fails : Nat → Bool) (attempt : Nat) :
    Nat → Bool × List Nat × List Nat
  | 0 =>
      if fails (attempt + 1) then (false, [attempt + 1], [])
      else (true, [], [])
  | r + 1 =>
      if fails (attempt + 1) then
        match retryFrom fails (attempt + 1) r with
        | (ok, errs, slps) =>
            (ok, (attempt + 1) :: errs,
              Nat.min (5 * (attempt + 1)) 30 :: slps)
      else (true, [], [])

/-- The whole retry loop for a file under `max_retries`: after a failed
attempt `a` the code breaks when `a >= max_retries`, so `max_retries - 1`
further attempts follow the first (and `max_retries = 0` still attempts
once, exactly as `attempt = 1 >= 0` breaks immediately in the code). -/
def retryRun (fails : Nat → Bool) (maxRetries : Nat) :
    Bool × List Nat × List Nat :=
  retryFrom fails 0 (maxRetries - 1)

/-- The accumulating state of one `backup` run: the content store, the
snapshot's `files/` tree, the manifest entries so far, the event log, and
the sleeps performed. -/
structure BState where
  store : List ((List Nat × List Nat) × List Nat)
  fdir : List (List String × List Nat)
  entries : List ManifestEntry
  events : List Event
  sleeps : List Nat
deriving DecidableEq, Repr

/-- Per-file processing inside `backup`'s walk: the filter, then under the
retry loop the hash, the content-store put (copy the bytes only when the
blob is absent), the hardlink-or-copy materialization of the blob into
`files/<root.name>/<rel>`, and the manifest-entry append. -/
def backupFile (hashFn : List Nat → List Nat) (maxRetries : Nat)
    (patterns : List String) (mode : Option String) (root : SourceRoot)
    (st : BState) (f : SrcFile) : BState :=
  let fp := fullPathStr root f
  if !should_process f.base fp patterns mode then
    { st with events := st.events ++ [Event.skipByFilter fp] }
  else
    match retryRun f.failsAttempt maxRetries with
    | (ok, errAttempts, slps) =>
      let errEvents := errAttempts.map (Event.error fp)
      if ok then
        let h := hashFn f.content
        let key := blobPath h
        match alookup st.store key with
        | some existing =>
            { st with
              events := st.events ++ errEvents ++ [Event.blobReuse fp h],
              sleeps := st.sleeps ++ slps,
              fdir := aupdate st.fdir (lpOf root f) existing,
              entries := st.entries ++ [mkEntry root f h] }
        | none =>
            { st with
              store := st.store ++ [(key, f.content)],
              events := st.events ++ errEvents ++ [Event.blobCopy fp h],
              sleeps := st.sleeps ++ slps,
              fdir := aupdate st.fdir (lpOf root f) f.content,
              entries := st.entries ++ [mkEntry root f h] }
      else
        { st with events := st.events ++ errEvents, sleeps := st.sleeps ++ slps }

/-- The walk over one source root's files, in walk order. -/
def runFiles (hashFn : List Nat → List Nat) (maxRetries : Nat)
    (patterns : List String) (mode : Option String) (root : SourceRoot)
    (st : BState) (fs : List SrcFile) : BState :=
  fs.foldl (backupFile hashFn maxRetries patterns mode root) st

/-- The walk over all source roots. -/
def backupRoots (hashFn : List Nat → List Nat) (maxRetries : Nat)
    (patterns : List String) (mode : Option String) (st : BState)
    (roots : List SourceRoot) : BState :=
  roots.foldl (fun s root => runFiles hashFn maxRetries patterns mode root s root.files) st

/-- The body of `backup` from the initial state (fresh empty `files/` dir,
the repository's existing store, a `start` event) through the source walk to
the final `done` event. It reads the repository only through its store —
the previous snapshots and their manifests are never consulted. -/
def backupCore (hashFn : List Nat → List Nat)
    (store0 : List ((List Nat × List Nat) × List Nat))
    (sources : List SourceRoot) (patterns : List String)
    (mode : Option String) (maxRetries : Nat) : BState :=
  let st0 : BState :=
    { store := store0, fdir := [], entries := [], events := [Event.start],
      sleeps := [] }
  let st1 := backupRoots hashFn maxRetries patterns mode st0 sources
  { st1 with events := st1.events ++ [Event.done st1.entries.length] }

/-- The result `backup` leaves behind: the updated repository (new snapshot
appended), the new snapshot id, its manifest, and the observable event/sleep
streams. -/
structure BackupOut where
  repo : Repo
  snapId : String
  manifest : Manifest
  events : List Event
  sleeps : List Nat
deriving DecidableEq, Repr

/-- Embedding of `backup(repo, sources, patterns, pattern_mode, use_vss, max_retries)`.
The timestamp (the snapshot id) is the externally supplied clock reading.
`useVss` is kept from the signature; on a non-Windows platform the VSS
context is never constructed, so it has no effect. An empty source list
raises. -/
def backup (hashFn : List Nat → List Nat) (repo : Repo)
    (sources : List SourceRoot) (patterns : List String)
    (mode : Option String) (_useVss : Bool) (maxRetries : Nat)
    (timestamp : String) : Except String BackupOut :=
  if sources.isEmpty then Except.error "En az bir kaynak klasör gerekli."
  else
    let st := backupCore hashFn repo.store sources patterns mode maxRetries
    let m : Manifest := { timestamp := timestamp, entries := st.entries }
    Except.ok
      { repo :=
          { store := st.store,
            snapshots := repo.snapshots ++
              [{ id := timestamp, manifest := some m, files := some st.fdir }] },
        snapId := timestamp,
        manifest := m,
        events := st.events,
        sleeps := st.sleeps }

/-- Code-point lexicographic order on character lists, the order Python's
`sorted` uses on strings. -/
def lexLe : List Char → List Char → Bool
  | [], _ => true
  | _ :: _, [] => false
  | a :: as, b :: bs =>
      if a.toNat < b.toNat then true
      else if b.toNat < a.toNat then false
      else lexLe as bs

/-- Lexicographic order on strings by code points. -/
def strLe (a b : String) : Bool := lexLe a.data b.data

/-- Insert into a `strLe`-sorted list, keeping it sorted. -/
def insertLe (x : String) : List String → List String
  | [] => [x]
  | y :: ys => if strLe x y then x :: y :: ys else y :: insertLe x ys

/-- Python's `sorted` for strings (ascending, code-point lexicographic),
as an insertion sort. -/
def sortLe : List String → List String
  | [] => []
  | x :: xs => insertLe x (sortLe xs)

/-- Embedding of `list_snapshots`: the snapshot directory names, sorted. (In the model
the repository's `snapshots` directory always exists once a `Repo` value
exists; an absent directory is the empty list.) -/
def list_snapshots (repo : Repo) : List String :=
  sortLe (repo.snapshots.map (fun s => s.id))

/-- Embedding of `resolve_snapshot`: `"latest"` (case-insensitively) picks the last of
the sorted snapshot ids, erroring when none exists; anything else must name
an existing snapshot directory. -/
def resolve_snapshot (repo : Repo) (sid : String) : Except String Snapshot :=
  if pyLower sid = "latest" then
    match (list_snapshots repo).getLast? with
    | none => Except.error "Snapshot bulunamadı."
    | some last =>
        match repo.snapshots.find? (fun s => s.id == last) with
        | some s => Except.ok s
        | none => Except.error ("Snapshot bulunamadı: " ++ last)
  else
    match repo.snapshots.find? (fun s => s.id == sid) with
    | some s => Except.ok s
    | none => Except.error ("Snapshot bulunamadı: " ++ sid)

/-- Embedding of `snapshot_files_root`: the snapshot's `files/` tree, erroring when the
snapshot or its `files` directory is absent. -/
def snapshot_files_root (repo : Repo) (sid : String) :
    Except String (List (List String × List Nat)) :=
  match resolve_snapshot repo sid with
  | Except.error e => Except.error e
  | Except.ok snap =>
      match snap.files with
      | none => Except.error "Geçersiz snapshot: files klasörü yok."
      | some t => Except.ok t

/-- The copy loop of `restore_full_snapshot`: every file of the snapshot
tree is copied into the target in walk order (`shutil.copy2` overwrites an
existing destination file). -/
def copyTree (tree target : List (List String × List Nat)) :
    List (List String × List Nat) :=
  tree.foldl (fun t pc => aupdate t pc.1 pc.2) target

/-- Embedding of `restore_full_snapshot`: walk the snapshot's `files/` tree and copy
every file into the target, creating directories as needed. -/
def restore_full_snapshot (repo : Repo) (sid : String)
    (target : List (List String × List Nat)) :
    Except String (List (List String × List Nat)) :=
  match snapshot_files_root repo sid with
  | Except.error e => Except.error e
  | Except.ok tree => Except.ok (copyTree tree target)

/-- Result of `restore_single_file`: the returned restored file name (the
base name, i.e. the path of the copy relative to the target directory) or
the raised error, together with the repository (which the operation never
writes) and the flat target directory contents. -/
structure SingleRestore where
  res : Except String String
  repo : Repo
  target : List (String × List Nat)
deriving Repr

/-- Embedding of `restore_single_file`: resolve `rel` against the snapshot's `files/`
root; error (before creating or writing anything) when that path is not a
regular file — absent, or a directory, including the empty relative path
which resolves to the `files/` root itself; otherwise copy that one file
into the target directory under its base name. -/
def restore_single_file (repo : Repo) (sid : String) (rel : List String)
    (targetDir : List (String × List Nat)) : SingleRestore :=
  match snapshot_files_root repo sid with
  | Except.error e => { res := Except.error e, repo := repo, target := targetDir }
  | Except.ok tree =>
      match alookup tree rel with
      | none =>
          { res := Except.error ("Dosya bulunamadı: " ++ String.intercalate "/" rel),
            repo := repo, target := targetDir }
      | some c =>
          match rel.getLast? with
          | none =>
              { res := Except.error ("Dosya bulunamadı: " ++ String.intercalate "/" rel),
                repo := repo, target := targetDir }
          | some nm =>
              { res := Except.ok nm, repo := repo,
                target := aupdate targetDir nm c }

/-- The counting fold of `verify` over the manifest entries: an entry with a
falsy hash (absent, or the empty digest) is skipped; otherwise the blob's
existence in the store decides between the `ok` and the missing count. -/
def verifyCounts (store : List ((List Nat × List Nat) × List Nat))
    (entries : List ManifestEntry) : Nat × Nat :=
  entries.foldl
    (fun c e =>
      match e.hash with
      | none => c
      | some h =>
          if h = [] then c
          else if (alookup store (blobPath h)).isSome then (c.1 + 1, c.2)
          else (c.1, c.2 + 1))
    (0, 0)

/-- Embedding of `verify(repo, snapshot_id)`: resolve the snapshot, require its manifest,
and report the `(ok, missing)` counts (the code reports them on its output
sink; the pair is the reported result). Blob contents are never read. -/
def verify (repo : Repo) (sid : String) : Except String (Nat × Nat) :=
  match resolve_snapshot repo sid with
  | Except.error e => Except.error e
  | Except.ok snap =>
      match snap.manifest with
      | none => Except.error "Manifest yok."
      | some m => Except.ok (verifyCounts repo.store m.entries)

/-- The digest of a manifest entry as `verify` sees it: `None`/absent and
the empty digest are both falsy in `if not h`, so neither counts as a hash. -/
def entryDigest (e : ManifestEntry) : Option (List Nat) :=
  match e.hash with
  | none => none
  | some [] => none
  | some h => some h

/-- An entry with a hash whose blob exists in the store. -/
def entryOk (store : List ((List Nat × List Nat) × List Nat))
    (e : ManifestEntry) : Bool :=
  match entryDigest e with
  | none => false
  | some h => (alookup store (blobPath h)).isSome

/-- An entry with a hash whose blob is absent from the store. -/
def entryMissing (store : List ((List Nat × List Nat) × List Nat))
    (e : ManifestEntry) : Bool :=
  match entryDigest e with
  | none => false
  | some h => !(alookup store (blobPath h)).isSome

/-- The spec's `entriesByPath` (§4.2): a manifest's `logicalPath -> hash`
association. -/
def entriesByPath (m : Manifest) : List (List String × Option (List Nat)) :=
  m.entries.map (fun e => (e.path, e.hash))

/-- The store well-formedness invariant of §3: a blob stored at the path
derived from hash `h` has content hashing to `h` (equivalently, every
binding's key is the sharded path of its content's digest). -/
def storeOk (hashFn : List Nat → List Nat)
    (store : List ((List Nat × List Nat) × List Nat)) : Prop :=
  ∀ kc ∈ store, kc.1 = blobPath (hashFn kc.2)

/-- The consecutive naturals `a, a+1, ..., a+n-1`; `natsFrom 1 m` is the
list of attempt numbers of a fully exhausted retry loop. -/
def natsFrom (a : Nat) : Nat → List Nat
  | 0 => []
  | n + 1 => a :: natsFrom (a + 1) n

/-- The logical paths of every candidate file of a run, in walk order. -/
def candPaths : List SourceRoot → List (List String)
  | [] => []
  | r :: rs => r.files.map (lpOf r) ++ candPaths rs

/-- The part of a backup's outcome that describes the snapshot it produced
(used to state that the outcome is independent of the previous snapshots). -/
def backupProduced (o : BackupOut) :
    Manifest × List Event × List Nat ×
      List ((List Nat × List Nat) × List Nat) × Option Snapshot :=
  (o.manifest, o.events, o.sleeps, o.repo.store, o.repo.snapshots.getLast?)

/-- The ordering predicate of `sortLe`, as a `Prop` for `List.Pairwise`. -/
def LeP (a b : String) : Prop := strLe a b = true

/-- A fallback `BackupOut` used only to keep concrete extraction functions
total; never produced by a successful run in the examples below. -/
def emptyOut : BackupOut :=
  { repo := { store := [], snapshots := [] },
    snapId := "", manifest := { timestamp := "", entries := [] },
    events := [], sleeps := [] }

/-- Example: a file `a.txt` of one byte `7` whose processing never raises. -/
def exFileC1 : SrcFile :=
  { dirs := [], base := "a.txt", content := [7], mtime := 0,
    statFails := false, failsAttempt := fun _ => false }

/-- Example: the source root `/src/data` holding just `a.txt`. -/
def exRootC1 : SourceRoot :=
  { pathStr := "/src/data", name := "data", files := [exFileC1] }

/-- Example: a previous snapshot's manifest already mapping
`data/a.txt` to the digest `[7]`. -/
def exPrevManifest : Manifest :=
  { timestamp := "2024-01-01_00-00-00",
    entries := [{ path := ["data", "a.txt"], hash := some [7],
                  size := some 1, mtime := some 0 }] }

/-- Example: the previous snapshot itself. -/
def exPrevSnap : Snapshot :=
  { id := "2024-01-01_00-00-00", manifest := some exPrevManifest,
    files := some [(["data", "a.txt"], [7])] }

/-- Example: a repository that already holds the blob for digest `[7]` and
the previous snapshot — the setting in which an unchanged file would be
skipped if the engine consulted the previous manifest. -/
def exRepoC1 : Repo :=
  { store := [(blobPath [7], [7])], snapshots := [exPrevSnap] }

/-- Example: a second backup of the unchanged tree, with the identity as
the (injective) digest function. -/
def exRunC1 : Except String BackupOut :=
  backup (fun c => c) exRepoC1 [exRootC1] [] none false 3 "2024-01-02_00-00-00"

/-- Example: a file `a.txt` with bytes `[104, 105]` for the round trip. -/
def exFileC2 : SrcFile :=
  { dirs := [], base := "a.txt", content := [104, 105], mtime := 5,
    statFails := false, failsAttempt := fun _ => false }

/-- Example: the source root `/src/data` for the round trip. -/
def exRootC2 : SourceRoot :=
  { pathStr := "/src/data", name := "data", files := [exFileC2] }

/-- Example: the backup run of the round trip, into an empty repository. -/
def exOutC2 : BackupOut :=
  match backup (fun c => c) { store := [], snapshots := [] } [exRootC2] []
      none false 3 "2024-01-02_00-00-00" with
  | Except.ok o => o
  | Except.error _ => emptyOut

/-- Example: the full restore of the round trip's snapshot into an empty
target. -/
def exRestoredC2 : List (List String × List Nat) :=
  match restore_full_snapshot exOutC2.repo "2024-01-02_00-00-00" [] with
  | Except.ok t => t
  | Except.error _ => []

/-- Example: a manifest for `verify` with one entry whose blob exists, one
whose blob is missing, and one without a hash. -/
def exManifestC3 : Manifest :=
  { timestamp := "s1",
    entries :=
      [{ path := ["d", "a"], hash := some [1, 2], size := some 1,
         mtime := some 0 },
       { path := ["d", "b"], hash := some [3, 4], size := some 1,
         mtime := some 0 },
       { path := ["d", "c"], hash := none, size := none, mtime := none }] }

/-- Example: the snapshot carrying `exManifestC3`. -/
def exSnapC3 : Snapshot :=
  { id := "s1", manifest := some exManifestC3, files := some [] }

/-- Example: a repository for `verify`: the blob for digest `[1, 2]`
present, the blob for `[3, 4]` absent. -/
def exRepoC3 : Repo :=
  { store := [(blobPath [1, 2], [9])], snapshots := [exSnapC3] }

/-- Example: an empty backup state (fresh repository, nothing logged). -/
def exSt0 : BState :=
  { store := [], fdir := [], entries := [], events := [], sleeps := [] }

/-- Example: a file whose processing raises on every attempt. -/
def exFileFail : SrcFile :=
  { dirs := [], base := "bad.bin", content := [1], mtime := 0,
    statFails := false, failsAttempt := fun _ => true }

/-- Example: a repository with two snapshots, for resolving `latest`. -/
def exRepoC8 : Repo :=
  { store := [],
    snapshots :=
      [{ id := "2024-01-02_00-00-00", manifest := none, files := none },
       { id := "2024-01-01_00-00-00", manifest := none, files := none }] }

/-- Example: a repository with one snapshot holding two files, for the
single-file restore. -/
def exRepoC9 : Repo :=
  { store := [],
    snapshots :=
      [{ id := "s", manifest := none,
         files := some [(["data", "a.txt"], [9]), (["data", "sub", "x"], [1])] }] }

/-- Example: a second source root also named `data` (a different parent
directory), holding a different file content at the same relative path. -/
def exRootA : SourceRoot :=
  { pathStr := "/p/data", name := "data",
    files := [{ dirs := [], base := "x", content := [1], mtime := 0,
                statFails := false, failsAttempt := fun _ => false }] }

/-- Example: the colliding twin of `exRootA`. -/
def exRootB : SourceRoot :=
  { pathStr := "/q/data", name := "data",
    files := [{ dirs := [], base := "x", content := [2], mtime := 0,
                statFails := false, failsAttempt := fun _ => false }] }

/-- Example: a root whose base name differs from `exRootA`'s. -/
def exRootD : SourceRoot :=
  { pathStr := "/p/data2", name := "data2",
    files := [{ dirs := [], base := "x", content := [3], mtime := 0,
                statFails := false, failsAttempt := fun _ => false }] }

/-- Example: a run over two roots with distinct base names. -/
def exOutC7 : BackupOut :=
  match backup (fun c => c) { store := [], snapshots := [] }
      [exRootA, exRootD] [] none false 1 "t" with
  | Except.ok o => o
  | Except.error _ => emptyOut

/-!
Theorems. Each claim of the specification review is settled below; helper
lemmas come first, the claim theorems carry the claim id in their doc
comment.
-/

theorem match_patterns_iff (name full : String) (patterns : List String) :
    match_patterns name full patterns = true ↔
      ∃ pat ∈ patterns, pyStrip pat ≠ "" ∧
        (globMatch (pyStrip pat) name = true ∨
          globMatch (pyStrip pat) full = true) := by
  unfold match_patterns
  rw [List.any_eq_true]
  constructor
  · rintro ⟨pat, hmem, hpat⟩
    by_cases hs : pyStrip pat = ""
    · simp [hs] at hpat
    · simp only [hs, if_neg, not_false_iff, Bool.or_eq_true] at hpat
      exact ⟨pat, hmem, hs, hpat⟩
  · rintro ⟨pat, hmem, hne, hor⟩
    refine ⟨pat, hmem, ?_⟩
    simp only [hne, if_neg, not_false_iff, Bool.or_eq_true]
    exact hor

/-- C10: any mode whose stripped, lowercased form is not `"include"`
(including `None`, the empty string, and arbitrary junk) behaves exactly as
mode `exclude`: the file is processed iff no pattern matches; the function
is total, so no failure is possible. -/
theorem mode_fallback_exclude (name full : String) (patterns : List String) :
    (∀ mode : Option String, normMode mode ≠ "include" →
        should_process name full patterns mode =
          !match_patterns name full patterns) ∧
    should_process name full patterns none =
      !match_patterns name full patterns ∧
    should_process name full patterns (some "") =
      !match_patterns name full patterns := by
  refine ⟨fun mode h => ?_, ?_, ?_⟩
  · simp [should_process, h]
  · have h : normMode none ≠ "include" := by decide
    simp [should_process, h]
  · have h : normMode (some "") ≠ "include" := by decide
    simp [should_process, h]

/-- C10 witness: a junk mode string falls back to exclude semantics on a
concrete file. -/
theorem mode_fallback_exclude_witness :
    normMode (some " Banana ") ≠ "include" ∧
      should_process "a.txt" "/r/a.txt" ["*.tmp"] (some " Banana ") =
        !match_patterns "a.txt" "/r/a.txt" ["*.tmp"] :=
  ⟨by decide,
    (mode_fallback_exclude "a.txt" "/r/a.txt" ["*.tmp"]).1 (some " Banana ")
      (by decide)⟩

/-- C6 counterexample: with the single pattern `" *"` (leading space) the
spec's wording says the file `a.txt` matches no pattern — neither its base
name nor its full path starts with a space — so under mode `Exclude` it
must be processed; the code strips the pattern to `"*"`, which matches
everything, and does not process the file. -/
theorem filter_strip_divergence :
    specWordsMatches "a.txt" "/r/a.txt" [" *"] = false ∧
    match_patterns "a.txt" "/r/a.txt" [" *"] = true ∧
    should_process "a.txt" "/r/a.txt" [" *"] (some "exclude") = false := by
  refine ⟨?_, ?_, ?_⟩ <;> decide

/-- C6 (amended): a candidate file matches iff some pattern, after stripping
surrounding whitespace, is nonempty and glob-matches its base name or its
full path; mode `include` processes exactly the matching files and every
other mode exactly the non-matching ones; a file the mode does not process
is skipped with a `skip_by_filter` event and contributes nothing to the
store, the `files/` tree, or the manifest. -/
theorem filter_spec_amended (name full : String) (patterns : List String)
    (mode : Option String) :
    (match_patterns name full patterns = true ↔
      ∃ pat ∈ patterns, pyStrip pat ≠ "" ∧
        (globMatch (pyStrip pat) name = true ∨
          globMatch (pyStrip pat) full = true)) ∧
    (normMode mode = "include" →
      should_process name full patterns mode =
        match_patterns name full patterns) ∧
    (normMode mode ≠ "include" →
      should_process name full patterns mode =
        !match_patterns name full patterns) ∧
    ∀ (hashFn : List Nat → List Nat) (maxRetries : Nat) (root : SourceRoot)
      (st : BState) (f : SrcFile),
      should_process f.base (fullPathStr root f) patterns mode = false →
      backupFile hashFn maxRetries patterns mode root st f =
        { st with events := st.events ++ [Event.skipByFilter (fullPathStr root f)] } := by
  refine ⟨match_patterns_iff name full patterns, fun h => ?_, fun h => ?_, ?_⟩
  · simp [should_process, h]
  · simp [should_process, h]
  · intro hashFn maxRetries root st f hskip
    simp [backupFile, hskip]

/-- C6 witness: the amended filter semantics evaluated on the spec's §8
example — `*.tmp` under exclude skips `a.tmp` and processes `a.txt`, and
the skip produces exactly a `skip_by_filter` event. -/
theorem filter_spec_amended_witness :
    should_process "a.tmp" "/d/a.tmp" ["*.tmp"] (some "exclude") =
      !match_patterns "a.tmp" "/d/a.tmp" ["*.tmp"] ∧
    match_patterns "a.tmp" "/d/a.tmp" ["*.tmp"] = true ∧
    should_process "a.txt" "/d/a.txt" ["*.tmp"] (some "include") =
      match_patterns "a.txt" "/d/a.txt" ["*.tmp"] ∧
    match_patterns "a.txt" "/d/a.txt" ["*.tmp"] = false :=
  ⟨(filter_spec_amended "a.tmp" "/d/a.tmp" ["*.tmp"] (some "exclude")).2.2.1
      (by decide),
    by decide,
    (filter_spec_amended "a.txt" "/d/a.txt" ["*.tmp"] (some "include")).2.1
      (by decide),
    by decide⟩

theorem lexLe_refl (l : List Char) : lexLe l l = true := by
  induction l with
  | nil => rfl
  | cons a as ih => simp [lexLe, Nat.lt_irrefl, ih]

theorem strLe_refl (s : String) : strLe s s = true := lexLe_refl s.data

theorem lexLe_total (a b : List Char) :
    lexLe a b = true ∨ lexLe b a = true := by
  induction a generalizing b with
  | nil => left; rfl
  | cons x xs ih =>
    cases b with
    | nil => right; rfl
    | cons y ys =>
      rcases Nat.lt_trichotomy x.toNat y.toNat with h | h | h
      · left; simp [lexLe, h]
      · have hxy : ¬ x.toNat < y.toNat := by omega
        have hyx : ¬ y.toNat < x.toNat := by omega
        rcases ih ys with h2 | h2
        · left; simp [lexLe, hxy, hyx, h2]
        · right; simp [lexLe, hxy, hyx, h2]
      · have hxy : ¬ x.toNat < y.toNat := by omega
        right; simp [lexLe, h]

theorem strLe_total (a b : String) : strLe a b = true ∨ strLe b a = true :=
  lexLe_total a.data b.data

theorem lexLe_trans {a b c : List Char} (h1 : lexLe a b = true)
    (h2 : lexLe b c = true) : lexLe a c = true := by
  induction a generalizing b c with
  | nil => rfl
  | cons x xs ih =>
    cases b with
    | nil => simp [lexLe] at h1
    | cons y ys =>
      cases c with
      | nil => simp [lexLe] at h2
      | cons z zs =>
        rcases Nat.lt_trichotomy x.toNat y.toNat with hxy | hxy | hxy
        · rcases Nat.lt_trichotomy y.toNat z.toNat with hyz | hyz | hyz
          · simp [lexLe, show x.toNat < z.toNat by omega]
          · simp [lexLe, show x.toNat < z.toNat by omega]
          · simp [lexLe, show ¬ y.toNat < z.toNat by omega, hyz] at h2
        · simp only [lexLe, show ¬ x.toNat < y.toNat by omega,
            show ¬ y.toNat < x.toNat by omega, if_neg, not_false_iff,
            if_false] at h1
          rcases Nat.lt_trichotomy y.toNat z.toNat with hyz | hyz | hyz
          · simp [lexLe, show x.toNat < z.toNat by omega]
          · simp only [lexLe, show ¬ y.toNat < z.toNat by omega,
              show ¬ z.toNat < y.toNat by omega, if_neg, not_false_iff,
              if_false] at h2
            simp only [lexLe, show ¬ x.toNat < z.toNat by omega,
              show ¬ z.toNat < x.toNat by omega, if_neg, not_false_iff,
              if_false]
            exact ih h1 h2
          · simp [lexLe, show ¬ y.toNat < z.toNat by omega, hyz] at h2
        · simp [lexLe, show ¬ x.toNat < y.toNat by omega, hxy] at h1

theorem strLe_trans {a b c : String} (h1 : strLe a b = true)
    (h2 : strLe b c = true) : strLe a c = true :=
  lexLe_trans h1 h2

theorem mem_insertLe (x y : String) (l : List String) :
    x ∈ insertLe y l ↔ x = y ∨ x ∈ l := by
  induction l with
  | nil => simp [insertLe]
  | cons z zs ih =>
    unfold insertLe
    by_cases h : strLe y z = true
    · rw [if_pos h]
      simp [List.mem_cons]
    · rw [if_neg h]
      simp only [List.mem_cons, ih]
      tauto

theorem insertLe_pairwise (x : String) (l : List String)
    (h : l.Pairwise LeP) : (insertLe x l).Pairwise LeP := by
  induction l with
  | nil => simp [insertLe]
  | cons y ys ih =>
    rcases List.pairwise_cons.1 h with ⟨hy, hys⟩
    by_cases hxy : strLe x y = true
    · simp only [insertLe, hxy, if_pos]
      refine List.pairwise_cons.2 ⟨?_, h⟩
      intro z hz
      rcases List.mem_cons.1 hz with rfl | hz
      · exact hxy
      · exact strLe_trans hxy (hy z hz)
    · simp only [insertLe, hxy, if_neg, not_false_iff, if_false]
      refine List.pairwise_cons.2 ⟨?_, ih hys⟩
      intro z hz
      rcases (mem_insertLe z x ys).1 hz with hzx | hz
      · rw [hzx]
        rcases strLe_total x y with h2 | h2
        · exact absurd h2 hxy
        · exact h2
      · exact hy z hz

theorem sortLe_pairwise (l : List String) : (sortLe l).Pairwise LeP := by
  induction l with
  | nil => simp [sortLe]
  | cons x xs ih => exact insertLe_pairwise x (sortLe xs) ih

theorem mem_sortLe (x : String) (l : List String) :
    x ∈ sortLe l ↔ x ∈ l := by
  induction l with
  | nil => simp [sortLe]
  | cons y ys ih =>
    simp only [sortLe, mem_insertLe, ih, List.mem_cons]

theorem insertLe_ne_nil (x : String) (l : List String) :
    insertLe x l ≠ [] := by
  cases l with
  | nil => simp [insertLe]
  | cons y ys =>
    by_cases h : strLe x y = true <;> simp [insertLe, h]

theorem sortLe_eq_nil_iff (l : List String) : sortLe l = [] ↔ l = [] := by
  cases l with
  | nil => simp [sortLe]
  | cons x xs =>
    simp only [sortLe]
    constructor
    · intro h
      exact absurd h (insertLe_ne_nil x (sortLe xs))
    · intro h
      cases h

theorem mem_of_getLast?_eq {α : Type} {l : List α} {a : α}
    (h : l.getLast? = some a) : a ∈ l := by
  induction l with
  | nil => simp at h
  | cons x xs ih =>
    cases xs with
    | nil =>
      simp only [List.getLast?_singleton, Option.some.injEq] at h
      simp [h]
    | cons y ys =>
      rw [List.getLast?_cons_cons] at h
      exact List.mem_cons_of_mem _ (ih h)

theorem pairwise_le_getLast {l : List String} {m : String} :
    l.Pairwise LeP → l.getLast? = some m → ∀ x ∈ l, strLe x m = true := by
  induction l with
  | nil =>
    intro _ _ x hx
    simp at hx
  | cons a l ih =>
    intro hp hm x hx
    cases l with
    | nil =>
      simp only [List.getLast?_singleton, Option.some.injEq] at hm
      have hxa := List.mem_singleton.1 hx
      rw [hxa, ← hm]
      exact strLe_refl a
    | cons b l2 =>
      rw [List.getLast?_cons_cons] at hm
      rcases List.pairwise_cons.1 hp with ⟨ha, hrest⟩
      rcases List.mem_cons.1 hx with rfl | hx2
      · exact ha m (mem_of_getLast?_eq hm)
      · exact ih hrest hm x hx2

/-- C8: `latest` resolves to the lexicographically last snapshot id present
in the `snapshots` collection; with no snapshot at all the resolution errors;
an explicit id whose snapshot directory is absent also errors. -/
theorem resolve_snapshot_spec (repo : Repo) :
    (repo.snapshots ≠ [] →
      ∃ s, resolve_snapshot repo "latest" = Except.ok s ∧
        s.id ∈ repo.snapshots.map Snapshot.id ∧
        ∀ i ∈ repo.snapshots.map Snapshot.id, strLe i s.id = true) ∧
    (repo.snapshots = [] →
      resolve_snapshot repo "latest" = Except.error "Snapshot bulunamadı.") ∧
    ∀ sid : String, pyLower sid ≠ "latest" →
      sid ∉ repo.snapshots.map Snapshot.id →
      resolve_snapshot repo sid =
        Except.error ("Snapshot bulunamadı: " ++ sid) := by
  have hlatest : pyLower "latest" = "latest" := by decide
  refine ⟨?_, ?_, ?_⟩
  · intro h
    have hne : list_snapshots repo ≠ [] := by
      unfold list_snapshots
      rw [Ne, sortLe_eq_nil_iff, List.map_eq_nil_iff]
      exact h
    rcases hm : (list_snapshots repo).getLast? with _ | last
    · rw [List.getLast?_eq_none_iff] at hm
      exact absurd hm hne
    · have hlastmem : last ∈ repo.snapshots.map Snapshot.id :=
        (mem_sortLe last _).1 (mem_of_getLast?_eq hm)
      rcases List.mem_map.1 hlastmem with ⟨t, ht, htid⟩
      have hfs : (repo.snapshots.find? (fun s => s.id == last)).isSome := by
        rw [List.find?_isSome]
        exact ⟨t, ht, by simp [htid]⟩
      rcases hf : repo.snapshots.find? (fun s => s.id == last) with _ | s
      · rw [hf] at hfs
        simp at hfs
      · have hsid : s.id = last := by
          have := List.find?_some hf
          simpa using this
        refine ⟨s, ?_, ?_, ?_⟩
        · unfold resolve_snapshot
          rw [if_pos hlatest, hm]
          dsimp only
          rw [hf]
        · exact List.mem_map_of_mem Snapshot.id (List.mem_of_find?_eq_some hf)
        · intro i hi
          rw [hsid]
          exact pairwise_le_getLast (sortLe_pairwise _) hm i
            ((mem_sortLe i _).2 hi)
  · intro h
    unfold resolve_snapshot
    rw [if_pos hlatest]
    have hnil : list_snapshots repo = [] := by
      unfold list_snapshots
      rw [sortLe_eq_nil_iff, List.map_eq_nil_iff]
      exact h
    rw [hnil]
    rfl
  · intro sid h1 h2
    unfold resolve_snapshot
    rw [if_neg h1]
    have hnone : repo.snapshots.find? (fun s => s.id == sid) = none := by
      rw [List.find?_eq_none]
      intro s hs hbeq
      apply h2
      have hid : s.id = sid := by simpa using hbeq
      rw [← hid]
      exact List.mem_map_of_mem Snapshot.id hs
    rw [hnone]

/-- C8 witness: on a repository with two snapshots, `latest` resolves to the
lexicographically larger id, and a missing explicit id errors. -/
theorem resolve_snapshot_spec_witness :
    (∃ s, resolve_snapshot exRepoC8 "latest" = Except.ok s ∧
        s.id ∈ exRepoC8.snapshots.map Snapshot.id ∧
        ∀ i ∈ exRepoC8.snapshots.map Snapshot.id, strLe i s.id = true) ∧
    resolve_snapshot exRepoC8 "zzz" =
      Except.error ("Snapshot bulunamadı: " ++ "zzz") :=
  ⟨(resolve_snapshot_spec exRepoC8).1 (by decide),
    (resolve_snapshot_spec exRepoC8).2.2 "zzz" (by decide) (by decide)⟩

/-- C9: single-file restore resolves the relative path against the
snapshot's `files/` root; when that path is not a regular file (absent, or a
directory — including the empty relative path) it fails with a not-found
error, writing nothing to the target and leaving the repository unchanged;
otherwise it copies exactly that one file into the target directory under
the relative path's base name, returns that name, and leaves the repository
unchanged. -/
theorem restore_single_file_spec (repo : Repo) (sid : String)
    (tree : List (List String × List Nat))
    (hroot : snapshot_files_root repo sid = Except.ok tree)
    (rel : List String) (targetDir : List (String × List Nat)) :
    (alookup tree rel = none →
      (∃ e, (restore_single_file repo sid rel targetDir).res = Except.error e) ∧
      (restore_single_file repo sid rel targetDir).target = targetDir ∧
      (restore_single_file repo sid rel targetDir).repo = repo) ∧
    (rel = [] →
      (∃ e, (restore_single_file repo sid rel targetDir).res = Except.error e) ∧
      (restore_single_file repo sid rel targetDir).target = targetDir ∧
      (restore_single_file repo sid rel targetDir).repo = repo) ∧
    ∀ c nm, alookup tree rel = some c → rel.getLast? = some nm →
      (restore_single_file repo sid rel targetDir).res = Except.ok nm ∧
      (restore_single_file repo sid rel targetDir).repo = repo ∧
      alookup (restore_single_file repo sid rel targetDir).target nm = some c ∧
      ∀ k, k ≠ nm →
        alookup (restore_single_file repo sid rel targetDir).target k =
          alookup targetDir k := by
  unfold restore_single_file
  rw [hroot]
  refine ⟨?_, ?_, ?_⟩
  · intro hnone
    simp only [hnone]
    exact ⟨⟨_, rfl⟩, by trivial, by trivial⟩
  · intro hrel
    subst hrel
    rcases halook : alookup tree ([] : List String) with _ | c <;>
      simp only [halook] <;> exact ⟨⟨_, rfl⟩, by trivial, by trivial⟩
  · intro c nm hc hnm
    simp only [hc, hnm]
    exact ⟨by trivial, by trivial, alookup_aupdate_self _ _ _,
      fun k hk => alookup_aupdate_ne _ _ _ _ hk⟩

/-- C9 witness: restoring `data/a.txt` from the example snapshot copies
exactly that file under its base name; asking for the directory `data`
fails. -/
theorem restore_single_file_spec_witness :
    ((restore_single_file exRepoC9 "s" ["data", "a.txt"] []).res =
        Except.ok "a.txt" ∧
      (restore_single_file exRepoC9 "s" ["data", "a.txt"] []).repo = exRepoC9 ∧
      alookup (restore_single_file exRepoC9 "s" ["data", "a.txt"] []).target
        "a.txt" = some [9]) ∧
    ∃ e, (restore_single_file exRepoC9 "s" ["data"] []).res =
      Except.error e := by
  have h1 := (restore_single_file_spec exRepoC9 "s"
      [(["data", "a.txt"], [9]), (["data", "sub", "x"], [1])] rfl
      ["data", "a.txt"] []).2.2 [9] "a.txt" rfl rfl
  have h2 := (restore_single_file_spec exRepoC9 "s"
      [(["data", "a.txt"], [9]), (["data", "sub", "x"], [1])] rfl
      ["data"] []).1 rfl
  exact ⟨⟨h1.1, h1.2.1, h1.2.2.1⟩, h2.1⟩

theorem verifyCounts_go (store : List ((List Nat × List Nat) × List Nat)) :
    ∀ (es : List ManifestEntry) (a b : Nat),
      es.foldl
        (fun c e =>
          match e.hash with
          | none => c
          | some h =>
              if h = [] then c
              else if (alookup store (blobPath h)).isSome then (c.1 + 1, c.2)
              else (c.1, c.2 + 1))
        (a, b) =
      (a + es.countP (entryOk store), b + es.countP (entryMissing store)) := by
  intro es
  induction es with
  | nil =>
    intro a b
    simp
  | cons e es ih =>
    intro a b
    rw [List.foldl_cons]
    rcases he : e.hash with _ | h
    · have hok : entryOk store e = false := by
        simp [entryOk, entryDigest, he]
      have hmiss : entryMissing store e = false := by
        simp [entryMissing, entryDigest, he]
      simp only [he]
      rw [ih]
      simp [List.countP_cons, hok, hmiss]
    · by_cases hnil : h = []
      · subst hnil
        have hok : entryOk store e = false := by
          simp [entryOk, entryDigest, he]
        have hmiss : entryMissing store e = false := by
          simp [entryMissing, entryDigest, he]
        simp only [he, if_pos rfl]
        rw [ih]
        simp [List.countP_cons, hok, hmiss]
      · have hdig : entryDigest e = some h := by
          cases h with
          | nil => exact absurd rfl hnil
          | cons x xs => simp [entryDigest, he]
        by_cases hsome : (alookup store (blobPath h)).isSome = true
        · have hok : entryOk store e = true := by
            simp [entryOk, hdig, hsome]
          have hmiss : entryMissing store e = false := by
            simp [entryMissing, hdig, hsome]
          simp only [he, hnil, if_neg, not_false_iff, hsome, if_pos]
          rw [ih]
          have h1 : (e :: es).countP (entryOk store) =
              es.countP (entryOk store) + 1 := by
            rw [List.countP_cons, hok]
            simp
          have h2 : (e :: es).countP (entryMissing store) =
              es.countP (entryMissing store) := by
            rw [List.countP_cons, hmiss]
            simp
          rw [h1, h2]
          have h3 : a + 1 + es.countP (entryOk store) =
              a + (es.countP (entryOk store) + 1) := by omega
          rw [h3]
        · have hok : entryOk store e = false := by
            simp [entryOk, hdig, hsome]
          have hmiss : entryMissing store e = true := by
            simp only [entryMissing, hdig]
            simp only [Bool.not_eq_true] at hsome
            simp [hsome]
          simp only [he, hnil, if_neg, not_false_iff, hsome,
            Bool.false_eq_true, if_false]
          rw [ih]
          have h1 : (e :: es).countP (entryOk store) =
              es.countP (entryOk store) := by
            rw [List.countP_cons, hok]
            simp
          have h2 : (e :: es).countP (entryMissing store) =
              es.countP (entryMissing store) + 1 := by
            rw [List.countP_cons, hmiss]
            simp
          rw [h1, h2]
          have h3 : b + 1 + es.countP (entryMissing store) =
              b + (es.countP (entryMissing store) + 1) := by omega
          rw [h3]

theorem verifyCounts_eq (store : List ((List Nat × List Nat) × List Nat))
    (es : List ManifestEntry) :
    verifyCounts store es =
      (es.countP (entryOk store), es.countP (entryMissing store)) := by
  have h := verifyCounts_go store es 0 0
  simpa [verifyCounts] using h

/-- C3: for a resolvable snapshot with a manifest, `verify` reports the pair
`(ok, missing)` where `ok` counts the entries with a (non-falsy) hash whose
blob exists in the store and `missing` those whose blob is absent; entries
without a hash count for neither; and the result depends on the store only
through which blob paths exist — blob contents are never re-hashed. -/
theorem verify_counts_spec (repo : Repo) (sid : String) (snap : Snapshot)
    (m : Manifest) (hres : resolve_snapshot repo sid = Except.ok snap)
    (hman : snap.manifest = some m) :
    verify repo sid = Except.ok
      (m.entries.countP (entryOk repo.store),
        m.entries.countP (entryMissing repo.store)) ∧
    ∀ repo2 : Repo, repo2.snapshots = repo.snapshots →
      akeys repo2.store = akeys repo.store →
      verify repo2 sid = verify repo sid := by
  constructor
  · unfold verify
    rw [hres]
    dsimp only
    rw [hman]
    dsimp only
    rw [verifyCounts_eq]
  · intro repo2 hsnaps hkeys
    have hres2 : resolve_snapshot repo2 sid = resolve_snapshot repo sid := by
      unfold resolve_snapshot list_snapshots
      rw [hsnaps]
    unfold verify
    rw [hres2, hres]
    dsimp only
    rw [hman]
    dsimp only
    rw [verifyCounts_eq, verifyCounts_eq]
    have hok : entryOk repo2.store = entryOk repo.store := by
      funext e
      unfold entryOk
      rcases hd : entryDigest e with _ | h
      · rfl
      · dsimp only
        rw [alookup_isSome_of_akeys repo2.store repo.store hkeys]
    have hmiss : entryMissing repo2.store = entryMissing repo.store := by
      funext e
      unfold entryMissing
      rcases hd : entryDigest e with _ | h
      · rfl
      · dsimp only
        rw [alookup_isSome_of_akeys repo2.store repo.store hkeys]
    rw [hok, hmiss]

/-- C3 witness: on the example repository the reported counts are
`ok = 1`, `missing = 1`, with the hashless entry ignored. -/
theorem verify_counts_spec_witness : verify exRepoC3 "s1" = Except.ok (1, 1) := by
  have h := (verify_counts_spec exRepoC3 "s1" exSnapC3 exManifestC3 rfl rfl).1
  rw [h]
  rfl

theorem natsFrom_length (a n : Nat) : (natsFrom a n).length = n := by
  induction n generalizing a with
  | zero => rfl
  | succ n ih => simp [natsFrom, ih]

theorem retryFrom_allfail (fails : Nat → Bool) (hf : ∀ n, fails n = true) :
    ∀ (r a : Nat), retryFrom fails a r =
      (false, natsFrom (a + 1) (r + 1),
        (natsFrom (a + 1) r).map (fun n => Nat.min (5 * n) 30)) := by
  intro r
  induction r with
  | zero =>
    intro a
    simp [retryFrom, hf, natsFrom]
  | succ r ih =>
    intro a
    simp only [retryFrom, hf (a + 1), if_pos]
    rw [ih (a + 1)]
    simp [natsFrom]

theorem retryRun_allfail (fails : Nat → Bool) (hf : ∀ n, fails n = true)
    (m : Nat) (hm : 1 ≤ m) :
    retryRun fails m =
      (false, natsFrom 1 m, (natsFrom 1 (m - 1)).map (fun n => Nat.min (5 * n) 30)) := by
  unfold retryRun
  rw [retryFrom_allfail fails hf (m - 1) 0]
  have h1 : m - 1 + 1 = m := by omega
  rw [h1]

/-- C5: a candidate file that passes the filter and whose processing raises
on every attempt is attempted exactly `maxRetries` times (one error event
per failed attempt, carrying the attempt numbers `1, ..., maxRetries`), the
sleep between attempt `n` and attempt `n+1` is `min(5*n, 30)` time units
(so `maxRetries - 1` sleeps), the file ends up absent from the manifest
(the state's store, `files/` tree and entries are untouched), and the walk
continues with the next file instead of aborting. Requires the configured
`max_retries >= 1` (§6). -/
theorem retry_exhaustion_spec (hashFn : List Nat → List Nat)
    (maxRetries : Nat) (patterns : List String) (mode : Option String)
    (root : SourceRoot) (st : BState) (f : SrcFile)
    (hm : 1 ≤ maxRetries)
    (hp : should_process f.base (fullPathStr root f) patterns mode = true)
    (hf : ∀ n, f.failsAttempt n = true) :
    backupFile hashFn maxRetries patterns mode root st f =
      { st with
        events := st.events ++
          (natsFrom 1 maxRetries).map (Event.error (fullPathStr root f)),
        sleeps := st.sleeps ++
          (natsFrom 1 (maxRetries - 1)).map (fun n => Nat.min (5 * n) 30) } ∧
    (natsFrom 1 maxRetries).length = maxRetries ∧
    ∀ rest : List SrcFile,
      runFiles hashFn maxRetries patterns mode root st (f :: rest) =
        runFiles hashFn maxRetries patterns mode root
          (backupFile hashFn maxRetries patterns mode root st f) rest := by
  refine ⟨?_, natsFrom_length 1 maxRetries, fun rest => rfl⟩
  unfold backupFile
  dsimp only
  rw [hp]
  simp only [Bool.not_true, Bool.false_eq_true, if_false]
  rw [retryRun_allfail f.failsAttempt hf maxRetries hm]
  rfl

/-- C5 witness: with `max_retries = 3`, an always-failing file produces
exactly the three error events (attempts 1, 2, 3), sleeps `min(5,30)` and
`min(10,30)`, and leaves the state otherwise unchanged. -/
theorem retry_exhaustion_spec_witness :
    backupFile (fun c => c) 3 [] none exRootC1 exSt0 exFileFail =
      { exSt0 with
        events := exSt0.events ++
          (natsFrom 1 3).map (Event.error (fullPathStr exRootC1 exFileFail)),
        sleeps := exSt0.sleeps ++
          (natsFrom 1 2).map (fun n => Nat.min (5 * n) 30) } ∧
    (natsFrom 1 3).length = 3 :=
  have h := retry_exhaustion_spec (fun c => c) 3 [] none exRootC1 exSt0
    exFileFail (by decide) (by decide) (fun n => rfl)
  ⟨h.1, h.2.1⟩

/-- C4: the content-store write is idempotent. For a processed file that
succeeds: if a blob already exists at the store path derived from the
computed hash, the store is left byte-for-byte unchanged and a `blob_reuse`
event is emitted instead of `blob_copy`; if it is absent, the bytes are
copied to the sharded path `store/<first two digest digits>/<digest>` and a
`blob_copy` event is emitted. -/
theorem store_put_idempotent (hashFn : List Nat → List Nat)
    (maxRetries : Nat) (patterns : List String) (mode : Option String)
    (root : SourceRoot) (st : BState) (f : SrcFile)
    (hp : should_process f.base (fullPathStr root f) patterns mode = true)
    (hok : (retryRun f.failsAttempt maxRetries).1 = true) :
    (∀ c0, alookup st.store (blobPath (hashFn f.content)) = some c0 →
      (backupFile hashFn maxRetries patterns mode root st f).store = st.store ∧
      alookup (backupFile hashFn maxRetries patterns mode root st f).store
        (blobPath (hashFn f.content)) = some c0 ∧
      (backupFile hashFn maxRetries patterns mode root st f).events =
        st.events ++
          (retryRun f.failsAttempt maxRetries).2.1.map
            (Event.error (fullPathStr root f)) ++
          [Event.blobReuse (fullPathStr root f) (hashFn f.content)]) ∧
    (alookup st.store (blobPath (hashFn f.content)) = none →
      (backupFile hashFn maxRetries patterns mode root st f).store =
        st.store ++
          [(((hashFn f.content).take 2, hashFn f.content), f.content)] ∧
      alookup (backupFile hashFn maxRetries patterns mode root st f).store
        (blobPath (hashFn f.content)) = some f.content ∧
      (backupFile hashFn maxRetries patterns mode root st f).events =
        st.events ++
          (retryRun f.failsAttempt maxRetries).2.1.map
            (Event.error (fullPathStr root f)) ++
          [Event.blobCopy (fullPathStr root f) (hashFn f.content)]) := by
  rcases hr : retryRun f.failsAttempt maxRetries with ⟨ok, errs, slps⟩
  rw [hr] at hok
  simp only at hok
  subst hok
  constructor
  · intro c0 hc
    unfold backupFile
    dsimp only
    rw [hp]
    simp only [Bool.not_true, Bool.false_eq_true, if_false, if_true, hr, hc]
    refine ⟨?_, ?_, ?_⟩ <;> trivial
  · intro hc
    unfold backupFile
    dsimp only
    rw [hp]
    simp only [Bool.not_true, Bool.false_eq_true, if_false, if_true, hr, hc]
    have h2 : alookup
        (st.store ++ [(blobPath (hashFn f.content), f.content)])
        (blobPath (hashFn f.content)) = some f.content := by
      rw [alookup_append_right _ hc]
      simp [alookup]
    exact ⟨by trivial, h2, by trivial⟩

/-- C4 witness: backing up the one-byte content `[7]` into an empty store
copies it to the sharded path; backing it up again leaves the store
unchanged and emits `blob_reuse`. -/
theorem store_put_idempotent_witness :
    ((backupFile (fun c => c) 3 [] none exRootC1 exSt0 exFileC1).store =
      exSt0.store ++ [((([7] : List Nat).take 2, ([7] : List Nat)), [7])]) ∧
    ((backupFile (fun c => c) 3 [] none exRootC1
        (backupFile (fun c => c) 3 [] none exRootC1 exSt0 exFileC1)
        exFileC1).store =
      (backupFile (fun c => c) 3 [] none exRootC1 exSt0 exFileC1).store) ∧
    ((backupFile (fun c => c) 3 [] none exRootC1
        (backupFile (fun c => c) 3 [] none exRootC1 exSt0 exFileC1)
        exFileC1).events =
      (backupFile (fun c => c) 3 [] none exRootC1 exSt0 exFileC1).events ++
        [] ++ [Event.blobReuse (fullPathStr exRootC1 exFileC1) [7]]) :=
  have hA := (store_put_idempotent (fun c => c) 3 [] none exRootC1 exSt0
    exFileC1 (by decide) rfl).2 rfl
  have hB := (store_put_idempotent (fun c => c) 3 [] none exRootC1
    (backupFile (fun c => c) 3 [] none exRootC1 exSt0 exFileC1) exFileC1
    (by decide) rfl).1 [7] rfl
  ⟨hA.1, hB.1, hB.2.2⟩

/-- C1 counterexample: in a repository whose previous snapshot's manifest
already maps `data/a.txt` to the file's current digest (the premise of the
claimed skip), a new backup still appends a manifest entry for
`data/a.txt` and still materializes it into the new snapshot's `files/`
tree — the claimed skip of the manifest-entry append and of the
materialization does not happen (the engine never loads the previous
manifest at all). -/
theorem backup_unchanged_file_still_appended :
    alookup (entriesByPath exPrevManifest) (lpOf exRootC1 exFileC1) =
      some (some ((fun c : List Nat => c) exFileC1.content)) ∧
    exRunC1.map (fun o => (o.manifest.entries.map ManifestEntry.path,
        o.repo.snapshots.getLast?.map Snapshot.files)) =
      Except.ok ([["data", "a.txt"]],
        some (some [(["data", "a.txt"], [7])])) := by
  constructor
  · rfl
  · rfl

/-- C1 (amended): the backup operation does not consult the previous
snapshot's manifest — its produced snapshot (manifest, events, sleeps,
resulting store, new snapshot directory) is the same whatever snapshots the
repository already holds — and every candidate file that passes the filter
and whose processing succeeds goes through the full path unconditionally:
its manifest entry is appended and it is materialized into `files/`; only
the store write is skipped, exactly when the blob for the computed hash
already exists in the content store. -/
theorem backup_full_path_always :
    (∀ (hashFn : List Nat → List Nat)
        (store0 : List ((List Nat × List Nat) × List Nat))
        (snaps1 snaps2 : List Snapshot) (sources : List SourceRoot)
        (patterns : List String) (mode : Option String) (vss : Bool)
        (maxR : Nat) (ts : String),
      (backup hashFn { store := store0, snapshots := snaps1 } sources
          patterns mode vss maxR ts).map backupProduced =
        (backup hashFn { store := store0, snapshots := snaps2 } sources
          patterns mode vss maxR ts).map backupProduced) ∧
    ∀ (hashFn : List Nat → List Nat) (maxR : Nat) (patterns : List String)
      (mode : Option String) (root : SourceRoot) (st : BState) (f : SrcFile),
      should_process f.base (fullPathStr root f) patterns mode = true →
      (retryRun f.failsAttempt maxR).1 = true →
      (backupFile hashFn maxR patterns mode root st f).entries =
        st.entries ++ [mkEntry root f (hashFn f.content)] ∧
      alookup (backupFile hashFn maxR patterns mode root st f).fdir
          (lpOf root f) =
        some ((alookup st.store (blobPath (hashFn f.content))).getD f.content) ∧
      ((alookup st.store (blobPath (hashFn f.content))).isSome →
        (backupFile hashFn maxR patterns mode root st f).store = st.store) ∧
      (alookup st.store (blobPath (hashFn f.content)) = none →
        (backupFile hashFn maxR patterns mode root st f).store =
          st.store ++ [(blobPath (hashFn f.content), f.content)]) := by
  constructor
  · intro hashFn store0 snaps1 snaps2 sources patterns mode vss maxR ts
    unfold backup
    by_cases hs : sources.isEmpty
    · rw [if_pos hs, if_pos hs]
    · rw [if_neg hs, if_neg hs]
      simp only [Except.map, backupProduced, List.getLast?_concat]
  · intro hashFn maxR patterns mode root st f hp hok
    rcases hr : retryRun f.failsAttempt maxR with ⟨ok, errs, slps⟩
    rw [hr] at hok
    simp only at hok
    subst hok
    rcases hc : alookup st.store (blobPath (hashFn f.content)) with _ | c0
    · have hstep : backupFile hashFn maxR patterns mode root st f =
          { store := st.store ++ [(blobPath (hashFn f.content), f.content)],
            fdir := aupdate st.fdir (lpOf root f) f.content,
            entries := st.entries ++ [mkEntry root f (hashFn f.content)],
            events := st.events ++
              errs.map (Event.error (fullPathStr root f)) ++
              [Event.blobCopy (fullPathStr root f) (hashFn f.content)],
            sleeps := st.sleeps ++ slps } := by
        unfold backupFile
        dsimp only
        rw [hp]
        simp only [Bool.not_true, Bool.false_eq_true, if_false, if_true, hr, hc]
      refine ⟨?_, ?_, ?_, ?_⟩
      · rw [hstep]
      · rw [hstep]
        exact alookup_aupdate_self _ _ _
      · intro h
        simp at h
      · intro h
        rw [hstep]
    · have hstep : backupFile hashFn maxR patterns mode root st f =
          { store := st.store,
            fdir := aupdate st.fdir (lpOf root f) c0,
            entries := st.entries ++ [mkEntry root f (hashFn f.content)],
            events := st.events ++
              errs.map (Event.error (fullPathStr root f)) ++
              [Event.blobReuse (fullPathStr root f) (hashFn f.content)],
            sleeps := st.sleeps ++ slps } := by
        unfold backupFile
        dsimp only
        rw [hp]
        simp only [Bool.not_true, Bool.false_eq_true, if_false, if_true, hr, hc]
      refine ⟨?_, ?_, ?_, ?_⟩
      · rw [hstep]
      · rw [hstep]
        exact alookup_aupdate_self _ _ _
      · intro h
        rw [hstep]
      · intro h
        simp at h

/-- C1 amended witness: a concrete successfully processed file is appended
and materialized, and the blob write is skipped because the blob exists. -/
theorem backup_full_path_always_witness :
    (backupFile (fun c => c) 3 [] none exRootC1
        { store := [(blobPath [7], [7])], fdir := [], entries := [],
          events := [], sleeps := [] } exFileC1).entries =
      [] ++ [mkEntry exRootC1 exFileC1 [7]] ∧
    alookup (backupFile (fun c => c) 3 [] none exRootC1
        { store := [(blobPath [7], [7])], fdir := [], entries := [],
          events := [], sleeps := [] } exFileC1).fdir
      (lpOf exRootC1 exFileC1) = some [7] ∧
    (backupFile (fun c => c) 3 [] none exRootC1
        { store := [(blobPath [7], [7])], fdir := [], entries := [],
          events := [], sleeps := [] } exFileC1).store =
      [(blobPath [7], [7])] :=
  have h := (backup_full_path_always).2 (fun c => c) 3 [] none exRootC1
    { store := [(blobPath [7], [7])], fdir := [], entries := [],
      events := [], sleeps := [] } exFileC1 (by decide) rfl
  ⟨h.1, h.2.1, h.2.2.1 rfl⟩

theorem backupFile_entries_shape (hashFn : List Nat → List Nat) (maxR : Nat)
    (patterns : List String) (mode : Option String) (root : SourceRoot)
    (st : BState) (f : SrcFile) :
    ∃ t, (backupFile hashFn maxR patterns mode root st f).entries =
        st.entries ++ t ∧
      List.Sublist (t.map ManifestEntry.path) [lpOf root f] := by
  by_cases hp : should_process f.base (fullPathStr root f) patterns mode = true
  · rcases hr : retryRun f.failsAttempt maxR with ⟨ok, errs, slps⟩
    cases ok with
    | true =>
      rcases hc : alookup st.store (blobPath (hashFn f.content)) with _ | c0
      · refine ⟨[mkEntry root f (hashFn f.content)], ?_, ?_⟩
        · unfold backupFile
          dsimp only
          rw [hp]
          simp only [Bool.not_true, Bool.false_eq_true, if_false, if_true,
            hr, hc]
        · exact List.Sublist.refl _
      · refine ⟨[mkEntry root f (hashFn f.content)], ?_, ?_⟩
        · unfold backupFile
          dsimp only
          rw [hp]
          simp only [Bool.not_true, Bool.false_eq_true, if_false, if_true,
            hr, hc]
        · exact List.Sublist.refl _
    | false =>
      refine ⟨[], ?_, List.nil_sublist _⟩
      unfold backupFile
      dsimp only
      rw [hp]
      simp only [Bool.not_true, Bool.false_eq_true, if_false, if_true, hr]
      rw [List.append_nil]
  · have hpb : should_process f.base (fullPathStr root f) patterns mode = false := by
      cases hsp : should_process f.base (fullPathStr root f) patterns mode
      · rfl
      · exact absurd hsp hp
    refine ⟨[], ?_, List.nil_sublist _⟩
    unfold backupFile
    dsimp only
    rw [hpb]
    simp only [Bool.not_false, if_true]
    rw [List.append_nil]

theorem runFiles_entries_shape (hashFn : List Nat → List Nat) (maxR : Nat)
    (patterns : List String) (mode : Option String) (root : SourceRoot) :
    ∀ (fs : List SrcFile) (st : BState),
      ∃ t, (runFiles hashFn maxR patterns mode root st fs).entries =
          st.entries ++ t ∧
        List.Sublist (t.map ManifestEntry.path) (fs.map (lpOf root)) := by
  intro fs
  induction fs with
  | nil =>
    intro st
    exact ⟨[], (List.append_nil _).symm, List.nil_sublist _⟩
  | cons f fs ih =>
    intro st
    rcases backupFile_entries_shape hashFn maxR patterns mode root st f with
      ⟨t1, h1, hs1⟩
    rcases ih (backupFile hashFn maxR patterns mode root st f) with
      ⟨t2, h2, hs2⟩
    refine ⟨t1 ++ t2, ?_, ?_⟩
    · have hcons : runFiles hashFn maxR patterns mode root st (f :: fs) =
          runFiles hashFn maxR patterns mode root
            (backupFile hashFn maxR patterns mode root st f) fs := rfl
      rw [hcons, h2, h1, List.append_assoc]
    · rw [List.map_append]
      exact List.Sublist.append hs1 hs2

theorem backupRoots_entries_shape (hashFn : List Nat → List Nat) (maxR : Nat)
    (patterns : List String) (mode : Option String) :
    ∀ (roots : List SourceRoot) (st : BState),
      ∃ t, (backupRoots hashFn maxR patterns mode st roots).entries =
          st.entries ++ t ∧
        List.Sublist (t.map ManifestEntry.path) (candPaths roots) := by
  intro roots
  induction roots with
  | nil =>
    intro st
    exact ⟨[], (List.append_nil _).symm, List.nil_sublist _⟩
  | cons r rs ih =>
    intro st
    rcases runFiles_entries_shape hashFn maxR patterns mode r r.files st with
      ⟨t1, h1, hs1⟩
    rcases ih (runFiles hashFn maxR patterns mode r st r.files) with
      ⟨t2, h2, hs2⟩
    refine ⟨t1 ++ t2, ?_, ?_⟩
    · have hcons : backupRoots hashFn maxR patterns mode st (r :: rs) =
          backupRoots hashFn maxR patterns mode
            (runFiles hashFn maxR patterns mode r st r.files) rs := rfl
      rw [hcons, h2, h1, List.append_assoc]
    · simp only [candPaths]
      rw [List.map_append]
      exact List.Sublist.append hs1 hs2

theorem mem_candPaths {p : List String} :
    ∀ {roots : List SourceRoot}, p ∈ candPaths roots →
      ∃ r ∈ roots, ∃ f ∈ r.files, p = lpOf r f := by
  intro roots
  induction roots with
  | nil =>
    intro h
    simp [candPaths] at h
  | cons r rs ih =>
    intro h
    rcases List.mem_append.1 h with h | h
    · rcases List.mem_map.1 h with ⟨f, hf, hpf⟩
      exact ⟨r, List.mem_cons_self _ _, f, hf, hpf.symm⟩
    · rcases ih h with ⟨r2, hr2, f, hf, hpf⟩
      exact ⟨r2, List.mem_cons_of_mem _ hr2, f, hf, hpf⟩

theorem candPaths_nodup : ∀ roots : List SourceRoot,
    (roots.map SourceRoot.name).Nodup →
    (∀ r ∈ roots, (r.files.map relOf).Nodup) →
    (candPaths roots).Nodup := by
  intro roots
  induction roots with
  | nil =>
    intro _ _
    simp [candPaths]
  | cons r rs ih =>
    intro hnames hrels
    simp only [List.map_cons, List.nodup_cons] at hnames
    have h1 : (r.files.map (lpOf r)).Nodup := by
      have hmm : r.files.map (lpOf r) =
          (r.files.map relOf).map (fun rel => r.name :: rel) := by
        rw [List.map_map]
        rfl
      rw [hmm]
      refine List.Nodup.map ?_ (hrels r (List.mem_cons_self _ _))
      intro a b hab
      simpa using hab
    have h2 : (candPaths rs).Nodup :=
      ih hnames.2 (fun r2 hr2 => hrels r2 (List.mem_cons_of_mem _ hr2))
    simp only [candPaths]
    refine List.Nodup.append h1 h2 ?_
    intro p hp1 hp2
    rcases List.mem_map.1 hp1 with ⟨f, hf, hpf⟩
    rcases mem_candPaths hp2 with ⟨r2, hr2, f2, hf2, hpf2⟩
    have heq : lpOf r f = lpOf r2 f2 := hpf.trans hpf2
    have hname : r.name = r2.name := by
      have := heq
      simp only [lpOf, List.cons.injEq] at this
      exact this.1
    exact hnames.1 (hname ▸ List.mem_map_of_mem SourceRoot.name hr2)

/-- C7 counterexample: two source roots that share the base directory name
`data` (different parents) and each hold a file `x` produce a manifest with
two entries sharing the logicalPath `data/x` — entries are appended, never
deduplicated, so the claimed uniqueness fails for this combination of
source roots. -/
theorem manifest_duplicate_logical_path :
    (backup (fun c => c) { store := [], snapshots := [] } [exRootA, exRootB]
        [] none false 1 "t").map
      (fun o => o.manifest.entries.map ManifestEntry.path) =
      Except.ok [["data", "x"], ["data", "x"]] ∧
    ¬ ([["data", "x"], ["data", "x"]] : List (List String)).Nodup := by
  constructor
  · rfl
  · decide

/-- C7 (amended): within one backup run, no two manifest entries share a
logicalPath provided the source roots have pairwise-distinct base directory
names (and each root's walk yields distinct relative paths, as a filesystem
walk does); source roots sharing a base name do collide, as the
counterexample shows. -/
theorem manifest_paths_nodup_of_distinct_names
    (hashFn : List Nat → List Nat) (repo : Repo)
    (sources : List SourceRoot) (patterns : List String)
    (mode : Option String) (vss : Bool) (maxR : Nat) (ts : String)
    (out : BackupOut)
    (hout : backup hashFn repo sources patterns mode vss maxR ts =
      Except.ok out)
    (hnames : (sources.map SourceRoot.name).Nodup)
    (hrels : ∀ r ∈ sources, (r.files.map relOf).Nodup) :
    (out.manifest.entries.map ManifestEntry.path).Nodup := by
  unfold backup at hout
  by_cases hs : sources.isEmpty
  · rw [if_pos hs] at hout
    cases hout
  · rw [if_neg hs] at hout
    injection hout with hout
    subst hout
    dsimp only
    unfold backupCore
    dsimp only
    rcases backupRoots_entries_shape hashFn maxR patterns mode sources
        { store := repo.store, fdir := [], entries := [],
          events := [Event.start], sleeps := [] } with ⟨t, ht, hsub⟩
    rw [ht]
    simp only [List.nil_append]
    exact List.Nodup.sublist hsub (candPaths_nodup sources hnames hrels)

/-- C7 amended witness: with two roots named `data` and `data2` the manifest
paths are distinct. -/
theorem manifest_paths_nodup_witness :
    (exOutC7.manifest.entries.map ManifestEntry.path).Nodup :=
  manifest_paths_nodup_of_distinct_names (fun c => c)
    { store := [], snapshots := [] } [exRootA, exRootD] [] none false 1 "t"
    exOutC7 rfl (by decide)
    (by
      intro r hr
      rcases List.mem_cons.1 hr with h | hr2
      · rw [h]
        decide
      · rcases List.mem_cons.1 hr2 with h | hr3
        · rw [h]
          decide
        · cases hr3)

theorem find?_append_of_none {α : Type} {l1 : List α} (l2 : List α)
    {p : α → Bool} (h : l1.find? p = none) :
    (l1 ++ l2).find? p = l2.find? p := by
  induction l1 with
  | nil => simp
  | cons a l1 ih =>
    have hpa : ¬ p a = true := by
      intro hh
      rw [List.find?_cons_of_pos _ hh] at h
      cases h
    have h1 : l1.find? p = none := by
      rwa [List.find?_cons_of_neg _ hpa] at h
    rw [List.cons_append, List.find?_cons_of_neg _ hpa]
    exact ih h1

theorem alookup_eq_none_iff {α β : Type} [DecidableEq α]
    (l : List (α × β)) (k : α) : alookup l k = none ↔ k ∉ akeys l := by
  induction l with
  | nil => simp [alookup, akeys]
  | cons p l ih =>
    by_cases hk : p.1 = k
    · simp [alookup, hk, akeys]
    · simp only [alookup, hk, if_neg, not_false_iff]
      rw [ih]
      simp only [akeys, List.map_cons, List.mem_cons]
      constructor
      · intro h hc
        rcases hc with hc | hc
        · exact hk hc.symm
        · exact h hc
      · intro h hc
        exact h (Or.inr hc)

theorem store_lookup_inj (hashFn : List Nat → List Nat)
    (hInj : Function.Injective hashFn)
    {store : List ((List Nat × List Nat) × List Nat)}
    (hok : storeOk hashFn store) {c c2 : List Nat}
    (hc : alookup store (blobPath (hashFn c)) = some c2) : c2 = c := by
  have hmem := alookup_mem hc
  have hkey := hok _ hmem
  simp only [blobPath, Prod.mk.injEq] at hkey
  exact hInj hkey.2.symm

theorem backupFile_success (hashFn : List Nat → List Nat) (maxR : Nat)
    (patterns : List String) (mode : Option String) (root : SourceRoot)
    (st : BState) (f : SrcFile)
    (hp : should_process f.base (fullPathStr root f) patterns mode = true)
    (hok : (retryRun f.failsAttempt maxR).1 = true) :
    (∃ c, alookup st.store (blobPath (hashFn f.content)) = some c ∧
      backupFile hashFn maxR patterns mode root st f =
        { store := st.store,
          fdir := aupdate st.fdir (lpOf root f) c,
          entries := st.entries ++ [mkEntry root f (hashFn f.content)],
          events := st.events ++
            (retryRun f.failsAttempt maxR).2.1.map
              (Event.error (fullPathStr root f)) ++
            [Event.blobReuse (fullPathStr root f) (hashFn f.content)],
          sleeps := st.sleeps ++ (retryRun f.failsAttempt maxR).2.2 }) ∨
    (alookup st.store (blobPath (hashFn f.content)) = none ∧
      backupFile hashFn maxR patterns mode root st f =
        { store := st.store ++ [(blobPath (hashFn f.content), f.content)],
          fdir := aupdate st.fdir (lpOf root f) f.content,
          entries := st.entries ++ [mkEntry root f (hashFn f.content)],
          events := st.events ++
            (retryRun f.failsAttempt maxR).2.1.map
              (Event.error (fullPathStr root f)) ++
            [Event.blobCopy (fullPathStr root f) (hashFn f.content)],
          sleeps := st.sleeps ++ (retryRun f.failsAttempt maxR).2.2 }) := by
  rcases hr : retryRun f.failsAttempt maxR with ⟨ok, errs, slps⟩
  rw [hr] at hok
  simp only at hok
  subst hok
  rcases hc : alookup st.store (blobPath (hashFn f.content)) with _ | c0
  · right
    refine ⟨rfl, ?_⟩
    unfold backupFile
    dsimp only
    rw [hp]
    simp only [Bool.not_true, Bool.false_eq_true, if_false, if_true, hr, hc]
  · left
    refine ⟨c0, rfl, ?_⟩
    unfold backupFile
    dsimp only
    rw [hp]
    simp only [Bool.not_true, Bool.false_eq_true, if_false, if_true, hr, hc]

theorem backupFile_noop (hashFn : List Nat → List Nat) (maxR : Nat)
    (patterns : List String) (mode : Option String) (root : SourceRoot)
    (st : BState) (f : SrcFile)
    (h : should_process f.base (fullPathStr root f) patterns mode = false ∨
      (retryRun f.failsAttempt maxR).1 = false) :
    ∃ ev sl, backupFile hashFn maxR patterns mode root st f =
      { st with events := st.events ++ ev, sleeps := st.sleeps ++ sl } := by
  by_cases hp : should_process f.base (fullPathStr root f) patterns mode = true
  · have hfail : (retryRun f.failsAttempt maxR).1 = false := by
      rcases h with h | h
      · rw [hp] at h
        cases h
      · exact h
    rcases hr : retryRun f.failsAttempt maxR with ⟨ok, errs, slps⟩
    rw [hr] at hfail
    simp only at hfail
    subst hfail
    refine ⟨errs.map (Event.error (fullPathStr root f)), slps, ?_⟩
    unfold backupFile
    dsimp only
    rw [hp]
    simp only [Bool.not_true, Bool.false_eq_true, if_false, if_true, hr]
  · have hpb : should_process f.base (fullPathStr root f) patterns mode = false := by
      cases hsp : should_process f.base (fullPathStr root f) patterns mode
      · rfl
      · exact absurd hsp hp
    refine ⟨[Event.skipByFilter (fullPathStr root f)], [], ?_⟩
    unfold backupFile
    dsimp only
    rw [hpb]
    simp only [Bool.not_false, if_true]
    rw [List.append_nil]

theorem backupFile_storeOk (hashFn : List Nat → List Nat) (maxR : Nat)
    (patterns : List String) (mode : Option String) (root : SourceRoot)
    (st : BState) (f : SrcFile) (h0 : storeOk hashFn st.store) :
    storeOk hashFn (backupFile hashFn maxR patterns mode root st f).store := by
  by_cases hp : should_process f.base (fullPathStr root f) patterns mode = true
  · by_cases hsucc : (retryRun f.failsAttempt maxR).1 = true
    · rcases backupFile_success hashFn maxR patterns mode root st f hp hsucc
        with ⟨c, _, hstep⟩ | ⟨_, hstep⟩
      · rw [hstep]
        exact h0
      · rw [hstep]
        intro kc hkc
        rcases List.mem_append.1 hkc with hkc | hkc
        · exact h0 kc hkc
        · simp only [List.mem_singleton] at hkc
          rw [hkc]
    · rcases backupFile_noop hashFn maxR patterns mode root st f
        (Or.inr (by cases hr : (retryRun f.failsAttempt maxR).1
                    · rfl
                    · exact absurd hr hsucc)) with ⟨ev, sl, hstep⟩
      rw [hstep]
      exact h0
  · rcases backupFile_noop hashFn maxR patterns mode root st f
      (Or.inl (by cases hsp : should_process f.base (fullPathStr root f) patterns mode
                  · rfl
                  · exact absurd hsp hp)) with ⟨ev, sl, hstep⟩
    rw [hstep]
    exact h0

theorem backupFile_fdir_nodup (hashFn : List Nat → List Nat) (maxR : Nat)
    (patterns : List String) (mode : Option String) (root : SourceRoot)
    (st : BState) (f : SrcFile) (h0 : (akeys st.fdir).Nodup) :
    (akeys (backupFile hashFn maxR patterns mode root st f).fdir).Nodup := by
  by_cases hp : should_process f.base (fullPathStr root f) patterns mode = true
  · by_cases hsucc : (retryRun f.failsAttempt maxR).1 = true
    · rcases backupFile_success hashFn maxR patterns mode root st f hp hsucc
        with ⟨c, _, hstep⟩ | ⟨_, hstep⟩ <;>
        · rw [hstep]
          exact akeys_aupdate_nodup _ _ _ h0
    · rcases backupFile_noop hashFn maxR patterns mode root st f
        (Or.inr (by cases hr : (retryRun f.failsAttempt maxR).1
                    · rfl
                    · exact absurd hr hsucc)) with ⟨ev, sl, hstep⟩
      rw [hstep]
      exact h0
  · rcases backupFile_noop hashFn maxR patterns mode root st f
      (Or.inl (by cases hsp : should_process f.base (fullPathStr root f) patterns mode
                  · rfl
                  · exact absurd hsp hp)) with ⟨ev, sl, hstep⟩
    rw [hstep]
    exact h0

theorem backupFile_fdir_other (hashFn : List Nat → List Nat) (maxR : Nat)
    (patterns : List String) (mode : Option String) (root : SourceRoot)
    (st : BState) (f : SrcFile) (k : List String) (hk : k ≠ lpOf root f) :
    alookup (backupFile hashFn maxR patterns mode root st f).fdir k =
      alookup st.fdir k := by
  by_cases hp : should_process f.base (fullPathStr root f) patterns mode = true
  · by_cases hsucc : (retryRun f.failsAttempt maxR).1 = true
    · rcases backupFile_success hashFn maxR patterns mode root st f hp hsucc
        with ⟨c, _, hstep⟩ | ⟨_, hstep⟩ <;>
        · rw [hstep]
          exact alookup_aupdate_ne _ _ _ _ hk
    · rcases backupFile_noop hashFn maxR patterns mode root st f
        (Or.inr (by cases hr : (retryRun f.failsAttempt maxR).1
                    · rfl
                    · exact absurd hr hsucc)) with ⟨ev, sl, hstep⟩
      rw [hstep]
  · rcases backupFile_noop hashFn maxR patterns mode root st f
      (Or.inl (by cases hsp : should_process f.base (fullPathStr root f) patterns mode
                  · rfl
                  · exact absurd hsp hp)) with ⟨ev, sl, hstep⟩
    rw [hstep]

theorem backupFile_fdir_self (hashFn : List Nat → List Nat)
    (hInj : Function.Injective hashFn) (maxR : Nat)
    (patterns : List String) (mode : Option String) (root : SourceRoot)
    (st : BState) (f : SrcFile) (hso : storeOk hashFn st.store)
    (hp : should_process f.base (fullPathStr root f) patterns mode = true)
    (hsucc : (retryRun f.failsAttempt maxR).1 = true) :
    alookup (backupFile hashFn maxR patterns mode root st f).fdir
      (lpOf root f) = some f.content := by
  rcases backupFile_success hashFn maxR patterns mode root st f hp hsucc
    with ⟨c, hc, hstep⟩ | ⟨_, hstep⟩
  · rw [hstep]
    have hcf : c = f.content := store_lookup_inj hashFn hInj hso hc
    rw [hcf]
    exact alookup_aupdate_self _ _ _
  · rw [hstep]
    exact alookup_aupdate_self _ _ _

theorem runFiles_storeOk (hashFn : List Nat → List Nat) (maxR : Nat)
    (patterns : List String) (mode : Option String) (root : SourceRoot) :
    ∀ (fs : List SrcFile) (st : BState), storeOk hashFn st.store →
      storeOk hashFn (runFiles hashFn maxR patterns mode root st fs).store := by
  intro fs
  induction fs with
  | nil =>
    intro st h
    exact h
  | cons f fs ih =>
    intro st h
    exact ih (backupFile hashFn maxR patterns mode root st f)
      (backupFile_storeOk hashFn maxR patterns mode root st f h)

theorem runFiles_fdir_nodup (hashFn : List Nat → List Nat) (maxR : Nat)
    (patterns : List String) (mode : Option String) (root : SourceRoot) :
    ∀ (fs : List SrcFile) (st : BState), (akeys st.fdir).Nodup →
      (akeys (runFiles hashFn maxR patterns mode root st fs).fdir).Nodup := by
  intro fs
  induction fs with
  | nil =>
    intro st h
    exact h
  | cons f fs ih =>
    intro st h
    exact ih (backupFile hashFn maxR patterns mode root st f)
      (backupFile_fdir_nodup hashFn maxR patterns mode root st f h)

theorem runFiles_fdir_other (hashFn : List Nat → List Nat) (maxR : Nat)
    (patterns : List String) (mode : Option String) (root : SourceRoot) :
    ∀ (fs : List SrcFile) (st : BState) (k : List String),
      (∀ g ∈ fs, k ≠ lpOf root g) →
      alookup (runFiles hashFn maxR patterns mode root st fs).fdir k =
        alookup st.fdir k := by
  intro fs
  induction fs with
  | nil =>
    intro st k _
    rfl
  | cons f fs ih =>
    intro st k hk
    have h1 := ih (backupFile hashFn maxR patterns mode root st f) k
      (fun g hg => hk g (List.mem_cons_of_mem _ hg))
    rw [show runFiles hashFn maxR patterns mode root st (f :: fs) =
        runFiles hashFn maxR patterns mode root
          (backupFile hashFn maxR patterns mode root st f) fs from rfl, h1]
    exact backupFile_fdir_other hashFn maxR patterns mode root st f k
      (hk f (List.mem_cons_self _ _))

theorem runFiles_fdir_processed (hashFn : List Nat → List Nat)
    (hInj : Function.Injective hashFn) (maxR : Nat)
    (patterns : List String) (mode : Option String) (root : SourceRoot) :
    ∀ (fs : List SrcFile) (st : BState), storeOk hashFn st.store →
      (fs.map relOf).Nodup →
      ∀ f ∈ fs,
        should_process f.base (fullPathStr root f) patterns mode = true →
        (retryRun f.failsAttempt maxR).1 = true →
        alookup (runFiles hashFn maxR patterns mode root st fs).fdir
          (lpOf root f) = some f.content := by
  intro fs
  induction fs with
  | nil =>
    intro st _ _ f hf
    simp at hf
  | cons g fs ih =>
    intro st hso hnodup f hf hp hsucc
    simp only [List.map_cons, List.nodup_cons] at hnodup
    have hso1 : storeOk hashFn
        (backupFile hashFn maxR patterns mode root st g).store :=
      backupFile_storeOk hashFn maxR patterns mode root st g hso
    have hcons : runFiles hashFn maxR patterns mode root st (g :: fs) =
        runFiles hashFn maxR patterns mode root
          (backupFile hashFn maxR patterns mode root st g) fs := rfl
    rcases List.mem_cons.1 hf with rfl | hf2
    · rw [hcons]
      have hself := backupFile_fdir_self hashFn hInj maxR patterns mode root
        st f hso hp hsucc
      have hstable := runFiles_fdir_other hashFn maxR patterns mode root fs
        (backupFile hashFn maxR patterns mode root st f) (lpOf root f)
        (by
          intro g2 hg2 heq
          have hrel : relOf f = relOf g2 := by
            have := heq
            simp only [lpOf, List.cons.injEq] at this
            exact this.2
          exact hnodup.1 (hrel ▸ List.mem_map_of_mem relOf hg2))
      rw [hstable]
      exact hself
    · rw [hcons]
      exact ih (backupFile hashFn maxR patterns mode root st g) hso1
        hnodup.2 f hf2 hp hsucc

theorem copyTree_lookup_absent :
    ∀ (tree target : List (List String × List Nat)) (k : List String),
      alookup tree k = none →
      alookup (copyTree tree target) k = alookup target k := by
  intro tree
  induction tree with
  | nil =>
    intro target k _
    rfl
  | cons p rest ih =>
    intro target k h
    have hk : ¬ p.1 = k := by
      intro hh
      simp [alookup, hh] at h
    have h1 : alookup rest k = none := by
      simpa [alookup, hk] using h
    have hstep : copyTree (p :: rest) target =
        copyTree rest (aupdate target p.1 p.2) := rfl
    rw [hstep, ih _ k h1,
      alookup_aupdate_ne _ _ _ _ (fun hh => hk hh.symm)]

theorem copyTree_lookup_mem :
    ∀ (tree target : List (List String × List Nat)) (k : List String)
      (v : List Nat), (akeys tree).Nodup → alookup tree k = some v →
      alookup (copyTree tree target) k = some v := by
  intro tree
  induction tree with
  | nil =>
    intro target k v _ h
    simp [alookup] at h
  | cons p rest ih =>
    intro target k v hnodup h
    have hstep : copyTree (p :: rest) target =
        copyTree rest (aupdate target p.1 p.2) := rfl
    rw [hstep]
    by_cases hk : p.1 = k
    · have hv : p.2 = v := by
        simp only [alookup, hk, if_pos, Option.some.injEq] at h
        exact h
      have hnone : alookup rest k = none := by
        rw [alookup_eq_none_iff]
        simp only [akeys, List.map_cons, List.nodup_cons] at hnodup
        rw [← hk]
        exact hnodup.1
      rw [copyTree_lookup_absent rest _ k hnone, ← hk, ← hv]
      exact alookup_aupdate_self _ _ _
    · have h1 : alookup rest k = some v := by
        simpa [alookup, hk] using h
      simp only [akeys, List.map_cons, List.nodup_cons] at hnodup
      exact ih (aupdate target p.1 p.2) k v hnodup.2 h1

theorem restore_full_fresh (repo2 : Repo) (snaps : List Snapshot)
    (snap : Snapshot) (hsnaps : repo2.snapshots = snaps ++ [snap])
    (ts : String) (hts : pyLower ts ≠ "latest") (hid : snap.id = ts)
    (hfresh : ∀ s ∈ snaps, s.id ≠ ts)
    (tree : List (List String × List Nat)) (hfiles : snap.files = some tree)
    (target : List (List String × List Nat)) :
    restore_full_snapshot repo2 ts target = Except.ok (copyTree tree target) := by
  unfold restore_full_snapshot snapshot_files_root resolve_snapshot
  rw [hsnaps, if_neg hts]
  have hnone : snaps.find? (fun s => s.id == ts) = none := by
    rw [List.find?_eq_none]
    intro s hs
    simp [hfresh s hs]
  rw [find?_append_of_none _ hnone, List.find?_cons_of_pos _ (by simp [hid])]
  dsimp only
  rw [hfiles]

/-- C2: backing up a source tree and then fully restoring the resulting
snapshot into an empty target yields byte-identical contents at the same
relative path under the source root's base name, for every file the backup
processed (passed the filter and succeeded). Hypotheses: the digest function
is collision-free on the contents involved (injective), the repository's
store satisfies the blob invariant of §3, the walk yields distinct relative
paths, and the fresh snapshot id does not collide with an existing one nor
lowercase to `latest`. -/
theorem backup_restore_roundtrip (hashFn : List Nat → List Nat)
    (hInj : Function.Injective hashFn) (repo : Repo)
    (hstore : storeOk hashFn repo.store) (root : SourceRoot)
    (hrels : (root.files.map relOf).Nodup) (patterns : List String)
    (mode : Option String) (vss : Bool) (maxRetries : Nat)
    (timestamp : String) (hts : pyLower timestamp ≠ "latest")
    (hfresh : ∀ s ∈ repo.snapshots, s.id ≠ timestamp) (out : BackupOut)
    (hout : backup hashFn repo [root] patterns mode vss maxRetries timestamp =
      Except.ok out)
    (restored : List (List String × List Nat))
    (hres : restore_full_snapshot out.repo timestamp [] = Except.ok restored) :
    ∀ f ∈ root.files,
      should_process f.base (fullPathStr root f) patterns mode = true →
      (retryRun f.failsAttempt maxRetries).1 = true →
      alookup restored (lpOf root f) = some f.content := by
  intro f hf hp hsucc
  unfold backup at hout
  rw [if_neg (by simp)] at hout
  dsimp only at hout
  injection hout with hout
  subst hout
  dsimp only at hres
  set stc := backupCore hashFn repo.store [root] patterns mode maxRetries
    with hstc
  rw [restore_full_fresh _ repo.snapshots
      ⟨timestamp, some ⟨timestamp, stc.entries⟩, some stc.fdir⟩
      rfl timestamp hts rfl hfresh stc.fdir rfl []] at hres
  injection hres with hres
  rw [← hres]
  have hfd : stc.fdir =
      (runFiles hashFn maxRetries patterns mode root
        { store := repo.store, fdir := [], entries := [],
          events := [Event.start], sleeps := [] } root.files).fdir := by
    rw [hstc]
    rfl
  rw [hfd]
  apply copyTree_lookup_mem
  · exact runFiles_fdir_nodup hashFn maxRetries patterns mode root root.files
      { store := repo.store, fdir := [], entries := [],
        events := [Event.start], sleeps := [] } List.nodup_nil
  · exact runFiles_fdir_processed hashFn hInj maxRetries patterns mode root
      root.files
      { store := repo.store, fdir := [], entries := [],
        events := [Event.start], sleeps := [] } hstore hrels f hf hp hsucc

/-- C2 witness: the concrete round trip of a one-file tree restores the
original bytes at `data/a.txt`. -/
theorem backup_restore_roundtrip_witness :
    alookup exRestoredC2 ["data", "a.txt"] = some [104, 105] :=
  backup_restore_roundtrip (fun c => c) (fun a b h => h)
    { store := [], snapshots := [] } (fun kc hkc => absurd hkc (List.not_mem_nil kc))
    exRootC2 (by decide) [] none false 3 "2024-01-02_00-00-00" (by decide)
    (fun s hs => absurd hs (List.not_mem_nil s)) exOutC2 rfl exRestoredC2 rfl
    exFileC2 (List.mem_cons_self _ _) (by decide) rfl
